import Mathlib

/-!
Verification development for the email distribution script
(`Code.ts`, classes `EmailUtils`, `TextUtils`, `FileUtils`, `EmailBuilder`,
`TemplateManager`, `EmailProcessor`).

The TypeScript source is shallowly embedded: rows of the spreadsheet become
association lists of string fields, JavaScript string/regex operations become
executable functions on `List Char`, external collaborators (Drive, the HTML
template evaluator, Gmail, the built-in JSON object) become explicit function
parameters gathered in an `Env` structure, and thrown exceptions become
`Option`/`Except` results.
-/

namespace ReviewSender

/-! ## Character classes (JavaScript regex classes, ASCII range) -/

/-- The JavaScript `\s` class, restricted to its ASCII members: space, tab,
line feed, carriage return, vertical tab, form feed. -/
def isSpace (c : Char) : Bool :=
  (c == ' ') || (c == '\t') || (c == '\n') || (c == '\r') ||
  (c == Char.ofNat 11) || (c == Char.ofNat 12)

/-- The JavaScript `\w` class: `[A-Za-z0-9_]`. -/
def isWordChar (c : Char) : Bool :=
  (97 ≤ c.toNat && c.toNat ≤ 122) || (65 ≤ c.toNat && c.toNat ≤ 90) ||
  (48 ≤ c.toNat && c.toNat ≤ 57) || (c == '_')

/-- The class `[-\w]` used by `FileUtils.extractFileId` (`/[-\w]{25,}/`). -/
def isFileIdChar (c : Char) : Bool :=
  isWordChar c || (c == '-')

/-- The class `[a-z0-9]` of the email regex; with the `/i` flag it also
matches `A-Z`. -/
def isAlnum (c : Char) : Bool :=
  (97 ≤ c.toNat && c.toNat ≤ 122) || (65 ≤ c.toNat && c.toNat ≤ 90) ||
  (48 ≤ c.toNat && c.toNat ≤ 57)

/-- The class `[a-z0-9-]` of the email regex domain part (with `/i`). -/
def isDomainChar (c : Char) : Bool :=
  isAlnum c || (c == '-')

/-- The local-part class of the email regex, written in the source as
`[a-z0-9!#$%&'*+\/=?^_`{|}~-]` with the `/i` flag.  The punctuation members
are listed by code point: `! # $ % & apostrophe * + / = ? ^ _ backtick
lbrace pipe rbrace ~ -`. -/
def isLocalChar (c : Char) : Bool :=
  isAlnum c ||
  (c == '!') || (c == '#') || (c == '$') || (c == '%') || (c == '&') ||
  (c == Char.ofNat 39) || (c == '*') || (c == '+') || (c == '/') ||
  (c == '=') || (c == '?') || (c == '^') || (c == '_') ||
  (c == Char.ofNat 96) || (c == Char.ofNat 123) || (c == Char.ofNat 124) ||
  (c == Char.ofNat 125) || (c == '~') || (c == '-')

/-- Digit characters, the `\d` class. -/
def isDigitChar (c : Char) : Bool :=
  48 ≤ c.toNat && c.toNat ≤ 57

/-! ## Basic string helpers (JavaScript built-ins) -/

/-- `String.prototype.toLowerCase()` on a character list (ASCII behaviour). -/
def jsToLowerL (cs : List Char) : List Char :=
  cs.map Char.toLower

/-- `String.prototype.toLowerCase()`. -/
def jsToLower (s : String) : String :=
  String.mk (jsToLowerL s.toList)

/-- `String.prototype.trim()` on a character list. -/
def jsTrimL (cs : List Char) : List Char :=
  ((cs.dropWhile isSpace).reverse.dropWhile isSpace).reverse

/-- Global replacement of a fixed literal pattern, the semantics of
`String.prototype.replace` with a global regex made of literal characters:
scan left to right, replace each non-overlapping occurrence, continue after
the replaced text.  Structural recursion on a fuel argument; every step
consumes at least one character, so fuel `cs.length` always suffices. -/
def replaceSeqF (pat rep : List Char) : Nat → List Char → List Char
  | 0, cs => cs
  | _ + 1, [] => []
  | fuel + 1, c :: rest =>
    if pat ≠ [] ∧ pat.isPrefixOf (c :: rest) then
      rep ++ replaceSeqF pat rep fuel ((c :: rest).drop pat.length)
    else
      c :: replaceSeqF pat rep fuel rest

/-- Global literal replacement with adequate fuel. -/
def replaceSeq (pat rep cs : List Char) : List Char :=
  replaceSeqF pat rep cs.length cs

/-! ## `TextUtils.sanitizeJsonText` cleanup passes (`Code.ts`)

The source chains five operations on the cell text:
`text.replace(/\\"/g, '"').replace(/\\\\/g, '\\').replace(/\r?\n/g, ' ')
.trim()` followed by brace completion. -/

/-- Pass `.replace(/\\"/g, '"')`: un-escape escaped quote characters. -/
def unescapeQuotes (cs : List Char) : List Char :=
  replaceSeq [ '\\', Char.ofNat 34 ] [Char.ofNat 34] cs

/-- Pass `.replace(/\\\\/g, '\\')`: collapse doubled backslashes. -/
def collapseBackslashes (cs : List Char) : List Char :=
  replaceSeq [ '\\', '\\' ] [ '\\' ] cs

/-- Pass `.replace(/\r?\n/g, ' ')`: replace line breaks with spaces. -/
def newlinesToSpaces : List Char → List Char
  | [] => []
  | '\r' :: '\n' :: rest => ' ' :: newlinesToSpaces rest
  | '\n' :: rest => ' ' :: newlinesToSpaces rest
  | c :: rest => c :: newlinesToSpaces rest

/-- The opening curly brace character. -/
def lbrace : Char := Char.ofNat 123

/-- The closing curly brace character. -/
def rbrace : Char := Char.ofNat 125

/-- Brace completion: `if (!cleaned.startsWith('{')) cleaned = '{' + cleaned;
if (!cleaned.endsWith('}')) cleaned = cleaned + '}'`. -/
def ensureBracesL (cs : List Char) : List Char :=
  let withOpen := if cs.head? = some lbrace then cs else lbrace :: cs
  if withOpen.getLast? = some rbrace then withOpen else withOpen ++ [rbrace]

/-- The cleaned text built by `sanitizeJsonText` before parse validation, in
the source order of the chained `replace` calls: un-escape quotes, collapse
doubled backslashes, newlines to spaces, trim, brace completion. -/
def cleanedText (t : String) : String :=
  String.mk (ensureBracesL (jsTrimL (newlinesToSpaces
    (collapseBackslashes (unescapeQuotes t.toList)))))

/-- Modelled from the spec: the same five passes in the order the spec
states them — (a) collapse doubled backslashes, then (b) un-escape escaped
quotes, then (c) line breaks to spaces, (d) trim, (e) brace completion.
Written only to be compared with `cleanedText`, which follows the source. -/
def specOrderCleanedText (t : String) : String :=
  String.mk (ensureBracesL (jsTrimL (newlinesToSpaces
    (unescapeQuotes (collapseBackslashes t.toList)))))

/-! ## JSON values and `sanitizeJsonText`

`JSON.parse` / `JSON.stringify` belong to the JavaScript runtime, not to the
script; they are passed as explicit function parameters. -/

/-- Structured data values produced by `JSON.parse`. -/
inductive Json where
  | null : Json
  | bool (b : Bool) : Json
  | num (n : Int) : Json
  | str (s : String) : Json
  | arr (xs : List Json) : Json
  | obj (fields : List (String × Json)) : Json

/-- The canonical empty-object text. -/
def emptyObjectText : String := "\x7b\x7d"

/-- `TextUtils.sanitizeJsonText` of `src/Code.ts` (version 1.2.1, the
compiled source tree): empty input yields the canonical empty-object text;
otherwise clean, parse, and re-stringify, falling back to the canonical
empty-object text when parsing fails ([the catch branch]). -/
def sanitizeJsonText (parse : String → Option Json) (stringify : Json → String)
    (text : String) : String :=
  if text = "" then emptyObjectText
  else
    match parse (cleanedText text) with
    | some j => stringify j
    | none => emptyObjectText

/-- `TextUtils.sanitizeJsonText` of the top-level `Code.ts` snapshot
(version 1.1.0).  The only difference: `if (!text) return text;` returns the
empty input itself instead of the canonical empty-object text. -/
def sanitizeJsonTextV1 (parse : String → Option Json) (stringify : Json → String)
    (text : String) : String :=
  if text = "" then text
  else
    match parse (cleanedText text) with
    | some j => stringify j
    | none => emptyObjectText

/-! ## `TextUtils.sanitizeInput` and `TextUtils.decodeHtmlEntities` -/

/-- `TextUtils.sanitizeInput` (`src/Code.ts` v1.2.1):
`text.replace(/&/g, 'and')`, with empty text returned as the empty string. -/
def sanitizeInput (t : String) : String :=
  if t = "" then ""
  else String.mk (replaceSeq [ '&' ] [ 'a', 'n', 'd' ] t.toList)

/-- `TextUtils.decodeHtmlEntities`: the chained replacements
`&amp;` → `&`, `&lt;` → `<`, `&gt;` → `>`, `&quot;` → quote,
`&#39;` → apostrophe, applied in that order. -/
def decodeHtmlEntities (t : String) : String :=
  String.mk
    (replaceSeq ([ '&', '#', '3', '9' ] ++ [Char.ofNat 59]) [Char.ofNat 39]
      (replaceSeq ([ '&', 'q', 'u', 'o', 't' ] ++ [Char.ofNat 59]) [Char.ofNat 34]
        (replaceSeq ([ '&', 'g', 't' ] ++ [Char.ofNat 59]) [ '>' ]
          (replaceSeq ([ '&', 'l', 't' ] ++ [Char.ofNat 59]) [ '<' ]
            (replaceSeq ([ '&', 'a', 'm', 'p' ] ++ [Char.ofNat 59]) [ '&' ]
              t.toList)))))

/-! ## The record data model

A spreadsheet row mapped to an object (`SpreadsheetUtils.mapRowToObject`)
becomes an association list of string fields; absent fields and empty cells
both read as the empty string, matching JavaScript falsiness of `undefined`
and `''`. -/

/-- One distribution record (an `EmailRow` object of the source). -/
structure EmailRow where
  fields : List (String × String)
deriving DecidableEq

/-- Property read `row[key]`, where an absent key reads as `''`. -/
def getField (r : EmailRow) (k : String) : String :=
  match r.fields.find? (fun p => p.1 == k) with
  | some p => p.2
  | none => ""

/-- Property write `row[key] = v` (later bindings shadow earlier ones). -/
def setField (r : EmailRow) (k v : String) : EmailRow :=
  ⟨(k, v) :: r.fields⟩

/-! ## `EmailProcessor.applyTemplateIfNeeded` (`Code.ts` lines 1103–1125) -/

/-- The merge loop: `for (const key in template) { if (!row[key] &&
template[key]) row[key] = template[key]; }`. -/
def mergeTemplate (row tpl : EmailRow) : EmailRow :=
  tpl.fields.foldl
    (fun r kv => if getField r kv.1 = "" ∧ kv.2 ≠ "" then setField r kv.1 kv.2 else r)
    row

/-- `EmailProcessor.applyTemplateIfNeeded`: return the row unchanged when
`template_label` is empty; throw (modelled as `Except.error`) when the label
does not resolve; otherwise merge the template into the row's empty fields.
The `templates` parameter models `TemplateManager.getTemplateByLabel`. -/
def applyTemplateIfNeeded (templates : String → Option EmailRow)
    (row : EmailRow) : Except String EmailRow :=
  if getField row "template_label" = "" then .ok row
  else
    match templates (getField row "template_label") with
    | none => .error ("Template " ++ getField row "template_label" ++ " not found")
    | some tpl => .ok (mergeTemplate row tpl)

/-! ## A matcher for the source's regexes

JavaScript regex matching is leftmost, with greedy quantifiers explored in
backtracking preference order.  Each regex fragment is embedded as a function
`List Char → List Nat` returning the lengths of the prefixes it can match, in
the order the backtracking engine tries them; the head of the list at the
leftmost succeeding position is the match JavaScript reports. -/

/-- Greedy `p+` over a character class: lengths `[k, k-1, …, 1]` where `k`
is the maximal run. -/
def repeatLensPlus (p : Char → Bool) (cs : List Char) : List Nat :=
  (List.range (cs.takeWhile p).length).map (fun i => (cs.takeWhile p).length - i)

/-- Greedy `p*` over a character class: lengths `[k, k-1, …, 0]`. -/
def repeatLensStar (p : Char → Bool) (cs : List Char) : List Nat :=
  (List.range ((cs.takeWhile p).length + 1)).map (fun i => (cs.takeWhile p).length - i)

/-- A literal fragment. -/
def litLens (lit : List Char) (cs : List Char) : List Nat :=
  if lit.isPrefixOf cs then [lit.length] else []

/-- A single character from a class. -/
def charLens (p : Char → Bool) (cs : List Char) : List Nat :=
  match cs with
  | c :: _ => if p c then [1] else []
  | [] => []

/-- Sequencing: for each prefix length of the first fragment, in order, each
continuation length of the second. -/
def seqLens (f g : List Char → List Nat) (cs : List Char) : List Nat :=
  (f cs).flatMap (fun n => (g (cs.drop n)).map (fun m => n + m))

/-- Alternation, left alternative preferred. -/
def altLens (f g : List Char → List Nat) (cs : List Char) : List Nat :=
  f cs ++ g cs

/-- Greedy option `r?`: presence preferred over absence. -/
def optLens (f : List Char → List Nat) (cs : List Char) : List Nat :=
  f cs ++ [0]

/-- Greedy star over an arbitrary fragment, with explicit fuel; every
iteration of the fragments appearing under a star in the source consumes at
least one character, so fuel `cs.length` is always sufficient. -/
def starLensF (f : List Char → List Nat) : Nat → List Char → List Nat
  | 0, _ => [0]
  | fuel + 1, cs =>
    (((f cs).filter (fun n => 0 < n && n ≤ cs.length)).flatMap
      (fun n => (starLensF f fuel (cs.drop n)).map (fun m => n + m))) ++ [0]

/-- Greedy star with adequate fuel. -/
def starLens (f : List Char → List Nat) (cs : List Char) : List Nat :=
  starLensF f cs.length cs

/-- Greedy plus `r+` as `r r*`. -/
def plusLens (f : List Char → List Nat) (cs : List Char) : List Nat :=
  seqLens f (starLens f) cs

/-! ### The email regex of `EmailUtils.parseEmailAddresses`

`/([a-z0-9!#$%&'*+\/=?^_`{|}~-]+(?:\.[a-z0-9!#$%&'*+\/=?^_`{|}~-]+)*(@|\s+at\s+)(?:[a-z0-9](?:[a-z0-9-]*[a-z0-9])?(\.|\s+dot\s+))+[a-z0-9](?:[a-z0-9-]*[a-z0-9])?)/gi` -/

/-- Fragment `\.[localChar]+`, one dotted atom of the local part. -/
def dotAtomLens : List Char → List Nat :=
  seqLens (litLens [ '.' ]) (repeatLensPlus isLocalChar)

/-- Fragment `[localChar]+(?:\.[localChar]+)*`, the local part. -/
def localLens : List Char → List Nat :=
  seqLens (repeatLensPlus isLocalChar) (starLens dotAtomLens)

/-- Fragment `\s+`. -/
def wsPlusLens : List Char → List Nat :=
  repeatLensPlus isSpace

/-- Fragment `(@|\s+at\s+)`. -/
def atSepLens : List Char → List Nat :=
  altLens (litLens [ '@' ]) (seqLens wsPlusLens (seqLens (litLens [ 'a', 't' ]) wsPlusLens))

/-- Fragment `(\.|\s+dot\s+)`. -/
def dotSepLens : List Char → List Nat :=
  altLens (litLens [ '.' ]) (seqLens wsPlusLens (seqLens (litLens [ 'd', 'o', 't' ]) wsPlusLens))

/-- Fragment `[a-z0-9](?:[a-z0-9-]*[a-z0-9])?`, one domain label. -/
def dpartLens : List Char → List Nat :=
  seqLens (charLens isAlnum) (optLens (seqLens (repeatLensStar isDomainChar) (charLens isAlnum)))

/-- Fragment `(?:dpart(\.|\s+dot\s+))`, one iterated domain group. -/
def domainGroupLens : List Char → List Nat :=
  seqLens dpartLens dotSepLens

/-- Fragment `(?:dpart(\.|\s+dot\s+))+dpart`, the whole domain. -/
def domainLens : List Char → List Nat :=
  seqLens (plusLens domainGroupLens) dpartLens

/-- The whole email regex. -/
def emailLens : List Char → List Nat :=
  seqLens localLens (seqLens atSepLens domainLens)

/-! ### The exec loop of `parseEmailAddresses` -/

/-- Leftmost match search from position `pos`: the first position whose
preference list is non-empty wins, with its preferred length. -/
def firstMatchFrom (cs : List Char) (pos fuel : Nat) : Option (Nat × Nat) :=
  match fuel with
  | 0 => none
  | fuel + 1 =>
    match emailLens (cs.drop pos) with
    | n :: _ => some (pos, n)
    | [] => if pos < cs.length then firstMatchFrom cs (pos + 1) fuel else none

/-- The `while ((match = emailRegex.exec(cleanInput)) !== null)` loop:
collect successive leftmost matches, resuming after each match. -/
def execLoop (cs : List Char) (pos fuel : Nat) : List (List Char) :=
  match fuel with
  | 0 => []
  | fuel + 1 =>
    match firstMatchFrom cs pos (cs.length + 1 - pos) with
    | none => []
    | some (st, n) => ((cs.drop st).take n) :: execLoop cs (st + n) fuel

/-! ### Comment-line removal and obfuscation normalization -/

/-- Split on newline characters, keeping empty pieces (the line structure
seen by a multiline `^` anchor). -/
def splitLinesL : List Char → List (List Char)
  | [] => [[]]
  | c :: rest =>
    if c = '\n' then [] :: splitLinesL rest
    else
      match splitLinesL rest with
      | [] => [[c]]
      | l :: ls => (c :: l) :: ls

/-- One line under `replace(/^\/\/.*/gm, '')`: a line starting with `//`
loses the matched portion, which extends to the end of the line except that
`.` does not match a carriage return. -/
def stripComment (line : List Char) : List Char :=
  match line with
  | '/' :: '/' :: _ => line.dropWhile (fun c => c ≠ '\r')
  | _ => line

/-- `input.replace(/^\/\/.*/gm, '')`. -/
def removeCommentLines (cs : List Char) : List Char :=
  List.intercalate [ '\n' ] ((splitLinesL cs).map stripComment)

/-- `match[0].replace(/\s+(at|dot)\s+/g, m => m contains 'at' ? '@' : '.')`:
normalize obfuscated separators.  The leading and trailing `\s+` are greedy,
so each replaced occurrence swallows the maximal whitespace runs around the
word. -/
def replaceAtDotF : Nat → List Char → List Char
  | 0, cs => cs
  | _ + 1, [] => []
  | fuel + 1, c :: rest =>
    if isSpace c then
      match rest.dropWhile isSpace with
      | 'a' :: 't' :: d :: t2 =>
        if isSpace d then '@' :: replaceAtDotF fuel (t2.dropWhile isSpace)
        else (c :: rest.takeWhile isSpace) ++ replaceAtDotF fuel (rest.dropWhile isSpace)
      | 'd' :: 'o' :: 't' :: d :: t2 =>
        if isSpace d then '.' :: replaceAtDotF fuel (t2.dropWhile isSpace)
        else (c :: rest.takeWhile isSpace) ++ replaceAtDotF fuel (rest.dropWhile isSpace)
      | _ => (c :: rest.takeWhile isSpace) ++ replaceAtDotF fuel (rest.dropWhile isSpace)
    else c :: replaceAtDotF fuel rest

/-- The obfuscation normalization with adequate fuel (every step consumes at
least one character). -/
def replaceAtDot (cs : List Char) : List Char :=
  replaceAtDotF cs.length cs

/-- `match[0].startsWith('//')`. -/
def startsSlashSlash : List Char → Bool
  | '/' :: '/' :: _ => true
  | _ => false

/-- `EmailUtils.parseEmailAddresses` (`Code.ts` lines 326–349): remove
comment lines, lowercase, collect the regex matches, drop matches that begin
with `//`, and normalize the ` at ` / ` dot ` obfuscations. -/
def parseEmailAddresses (input : String) : List String :=
  if input = "" then []
  else
    let clean := jsToLowerL (removeCommentLines input.toList)
    let ms := execLoop clean 0 (clean.length + 1)
    (ms.filter (fun m => !startsSlashSlash m)).map (fun m => String.mk (replaceAtDot m))

/-! ## `EmailUtils.parseSessionId` (`Code.ts` lines 374–395) -/

/-- The `\d{3}-\d{3}-\d{3}` pattern together with the trailing `\b`: eleven
characters in the digit/hyphen shape, not followed by a word character. -/
def sessionPrefix : List Char → Option (List Char)
  | d1 :: d2 :: d3 :: '-' :: d4 :: d5 :: d6 :: '-' :: d7 :: d8 :: d9 :: rest =>
    if ([d1, d2, d3, d4, d5, d6, d7, d8, d9].all isDigitChar) &&
       (match rest with | [] => true | x :: _ => !isWordChar x) then
      some [d1, d2, d3, '-', d4, d5, d6, '-', d7, d8, d9]
    else none
  | _ => none

/-- Leftmost search for `\b\d{3}-\d{3}-\d{3}\b`; `prev` is the character
before the current position, used for the leading word boundary. -/
def findSession (prev : Option Char) (cs : List Char) : Option (List Char) :=
  match cs with
  | [] => none
  | c :: rest =>
    if (match prev with | none => true | some p => !isWordChar p) then
      match sessionPrefix (c :: rest) with
      | some m => some m
      | none => findSession (some c) rest
    else findSession (some c) rest

/-- The observable behaviour of `parseSessionId`: the returned identifier and
whether the multiple-identifiers debug message was logged. -/
structure SessionParse where
  result : Option String
  conflictLogged : Bool
deriving DecidableEq

/-- `EmailUtils.parseSessionId`: `text.match(/\b\d{3}-\d{3}-\d{3}\b/)` with a
non-global regex yields at most the single leftmost match, the result array
is filtered for truthiness, the `ids.length > 1` branch logs the conflict
message, and `ids[0] || null` is returned. -/
def parseSessionId (text : String) : SessionParse :=
  if text = "" then ⟨none, false⟩
  else
    match findSession none text.toList with
    | none => ⟨none, false⟩
    | some m =>
      let found := [String.mk m]
      let ids := found.filter (fun s => s ≠ "")
      ⟨ids.head?, decide (ids.length > 1)⟩

/-! ## `EmailUtils.combineEmailAddresses` (`Code.ts` lines 416–427) -/

/-- First-occurrence de-duplication, the order-preserving behaviour of
`[...new Set(list)]`, with structural fuel. -/
def dedupFirstF : Nat → List String → List String
  | 0, _ => []
  | _ + 1, [] => []
  | fuel + 1, x :: xs => x :: dedupFirstF fuel (xs.filter (fun y => y ≠ x))

/-- First-occurrence de-duplication with adequate fuel. -/
def dedupFirst (l : List String) : List String :=
  dedupFirstF l.length l

/-- The `allEmails` accumulator: parse each truthy source in order. -/
def allEmails (sources : List String) : List String :=
  sources.foldr (fun s acc => (if s = "" then [] else parseEmailAddresses s) ++ acc) []

/-- `[...new Set(allEmails.filter(Boolean))]`. -/
def combinedList (sources : List String) : List String :=
  dedupFirst ((allEmails sources).filter (fun e => e ≠ ""))

/-- `EmailUtils.combineEmailAddresses`: join the de-duplicated addresses with
commas, or return `null` when none were found. -/
def combineEmailAddresses (sources : List String) : Option String :=
  if combinedList sources = [] then none
  else some (String.intercalate "," (combinedList sources))

/-! ## Configuration constants (`CONFIG`, `MAX_ATTACHMENT_SIZE`) -/

/-- `MAX_ATTACHMENT_SIZE = 21 * 1024 * 1024`. -/
def MAX_ATTACHMENT_SIZE : Nat := 21 * 1024 * 1024

/-- `CONFIG.DEFAULT_SUBJECT`. -/
def DEFAULT_SUBJECT : String := "Your Subject Here"

/-- `CONFIG.FROM_EMAIL`. -/
def FROM_EMAIL : String := "constdoc@ucsc.edu"

/-! ## External collaborators

Drive, the HTML template evaluator, the mail transport and the JSON runtime
are external services; they are modelled as explicit functions, with `none`
standing for a thrown exception. -/

/-- An outgoing message as handed to `GmailApp.sendEmail`; attachments are
the fetched blobs, represented by their opaque content. -/
structure Mail where
  recipients : String
  subject : String
  htmlBody : String
  attachments : List String
  fromEmail : String
deriving DecidableEq

/-- The environment of external collaborators. -/
structure Env where
  /-- `DriveApp.getFileById(id).getSize()`; `none` models a thrown lookup
  error. -/
  fileSize : String → Option Nat
  /-- `DriveApp.getFileById(id).getBlob().getDataAsString()`. -/
  fileContent : String → Option String
  /-- `DriveApp.getFileById(id).getBlob()` for attaching. -/
  fileBlob : String → Option String
  /-- `HtmlService.createTemplate(text)` + `Object.assign` + `evaluate()`;
  `none` models a thrown evaluation error. -/
  render : String → Json → Option String
  /-- Whether `GmailApp.sendEmail` succeeds for a given message. -/
  transportOk : Mail → Bool
  /-- `JSON.parse`; `none` models a thrown syntax error. -/
  jsonParse : String → Option Json
  /-- `JSON.stringify`. -/
  jsonStringify : Json → String

/-! ## `FileUtils.extractFileId` -/

/-- Leftmost match of `/[-\w]{25,}/`: the first maximal run of word/hyphen
characters of length at least 25. -/
def fileIdScan : List Char → Option (List Char)
  | [] => none
  | c :: rest =>
    let run := (c :: rest).takeWhile isFileIdChar
    if 25 ≤ run.length then some run else fileIdScan rest

/-- `FileUtils.extractFileId`: `url.match(/[-\w]{25,}/)`, `none` modelling
the thrown `Invalid Google Drive URL` error. -/
def extractFileId (url : String) : Option String :=
  (fileIdScan url.toList).map String.mk

/-! ## Attachment handling (`EmailBuilder.getAttachments`,
`Code.ts` lines 737–773) -/

/-- Separator characters of `split(/[,;]+/)`. -/
def isSepChar (c : Char) : Bool :=
  (c == ',') || (c == ';')

/-- `String.prototype.split(/[,;]+/)`: pieces between maximal separator
runs; a leading or trailing separator contributes an empty piece, interior
runs collapse. -/
def jsSplitSepsF : Nat → List Char → List (List Char)
  | 0, cs => [cs.takeWhile (fun c => !isSepChar c)]
  | fuel + 1, cs =>
    match cs.dropWhile (fun c => !isSepChar c) with
    | [] => [cs.takeWhile (fun c => !isSepChar c)]
    | _ :: t => cs.takeWhile (fun c => !isSepChar c) :: jsSplitSepsF fuel (t.dropWhile isSepChar)

/-- The split with adequate fuel (every recursive step consumes at least the
separator character). -/
def jsSplitSeps (cs : List Char) : List (List Char) :=
  jsSplitSepsF cs.length cs

/-- `attachments_urls.split(/[,;]+/).map(url => url.trim())`. -/
def attachmentTokens (urls : String) : List String :=
  (jsSplitSeps urls.toList).map (fun p => String.mk (jsTrimL p))

/-- Processing of one attachment URL inside the loop of `getAttachments`:
extract the file id, check the size ceiling (`isFileTooLarge`), fetch the
blob; any failure is a thrown error. -/
def processAttachmentToken (env : Env) (tok : String) : Except String String :=
  match extractFileId tok with
  | none => .error ("Invalid Google Drive URL: " ++ tok)
  | some id =>
    match env.fileSize id with
    | none => .error ("Drive lookup failed: " ++ id)
    | some size =>
      if MAX_ATTACHMENT_SIZE < size then
        .error ("Attachment file too large: " ++ id)
      else
        match env.fileBlob id with
        | none => .error ("Drive lookup failed: " ++ id)
        | some blob => .ok blob

/-- The attachment loop: the first failing URL aborts the whole list
(`throw error; // Re-throw to prevent sending email with missing
attachments`). -/
def attachAll (env : Env) : List String → Except String (List String)
  | [] => .ok []
  | tok :: rest =>
    match processAttachmentToken env tok with
    | .error e => .error e
    | .ok b =>
      match attachAll env rest with
      | .error e => .error e
      | .ok bs => .ok (b :: bs)

/-- `EmailBuilder.getAttachments`: empty `attachments_urls` yields no
attachments; otherwise every token must resolve and pass the size check. -/
def getAttachments (env : Env) (row : EmailRow) : Except String (List String) :=
  if getField row "attachments_urls" = "" then .ok []
  else attachAll env (attachmentTokens (getField row "attachments_urls"))

/-! ## Template bindings (`EmailBuilder.getTemplateValues`) -/

/-- JavaScript property assignment `obj.k = v` on a parsed JSON value;
assignment to a non-object primitive is a silent no-op in sloppy mode. -/
def jsonSetProp (j : Json) (k : String) (v : Json) : Json :=
  match j with
  | .obj fs =>
    if fs.any (fun p => p.1 == k) then
      .obj (fs.map (fun p => if p.1 == k then (k, v) else p))
    else
      .obj (fs ++ [(k, v)])
  | other => other

/-- `EmailBuilder.getTemplateValues` (v1.1.0): sanitize the
`template_values` JSON, parse it (falsy sanitized text yields `{}` without
parsing), then inject `sessionId` from `revu_session_invite` when found.
`none` models a thrown `JSON.parse` error. -/
def getTemplateValues (env : Env) (row : EmailRow) : Option Json :=
  let sanitized := sanitizeJsonTextV1 env.jsonParse env.jsonStringify
      (getField row "template_values")
  let base? := if sanitized = "" then some (Json.obj []) else env.jsonParse sanitized
  match base? with
  | none => none
  | some base =>
    match (parseSessionId (getField row "revu_session_invite")).result with
    | some sid => some (jsonSetProp base "sessionId" (Json.str sid))
    | none => some base

/-! ## `EmailBuilder` rendering and sending (`Code.ts` lines 559–730) -/

/-- `EmailBuilder.buildEmailBody`: fetch the body template content from its
Drive reference, build the bindings, evaluate; any thrown step yields `null`
through the catch. -/
def buildEmailBody (env : Env) (row : EmailRow) : Option String := do
  let id ← extractFileId (getField row "email_body_template")
  let content ← env.fileContent id
  let vals ← getTemplateValues env row
  env.render content vals

/-- The evaluation step inside the `try` of `getFinalSubject`: build the
bindings and evaluate the subject template; `none` models any thrown
error. -/
def subjectRendered (env : Env) (row : EmailRow) : Option String :=
  (getTemplateValues env row).bind
    (fun vals => env.render (getField row "email_subject_template") vals)

/-- `EmailBuilder.getFinalSubject` (`Code.ts` lines 636–652): an empty
subject template yields the default subject; otherwise the template is
evaluated with the bindings, trimmed, entity-decoded, with any thrown error
or empty result falling back to the default subject. -/
def getFinalSubject (env : Env) (row : EmailRow) : String :=
  if getField row "email_subject_template" = "" then DEFAULT_SUBJECT
  else
    match subjectRendered env row with
    | none => DEFAULT_SUBJECT
    | some s =>
      let s2 := decodeHtmlEntities (String.mk (jsTrimL s.toList))
      if s2 = "" then DEFAULT_SUBJECT else s2

/-- Observable outcome of `EmailBuilder.sendEmail`: returned `false` before
reaching the transport, threw out of the method, or called the transport
with a message that was delivered or rejected. -/
inductive BuildOutcome where
  | skipped : BuildOutcome
  | threw (msg : String) : BuildOutcome
  | attempted (m : Mail) (delivered : Bool) : BuildOutcome
deriving DecidableEq

/-- The messages handed to the mail transport during `sendEmail`. -/
def outcomeMails : BuildOutcome → List Mail
  | .attempted m _ => [m]
  | _ => []

/-- Whether `sendEmail` returned `true`. -/
def outcomeDelivered : BuildOutcome → Bool
  | .attempted _ ok => ok
  | _ => false

/-- `EmailBuilder.sendEmail` (`Code.ts` lines 559–590): recipients, body,
attachments, subject, then the transport call. -/
def builderSendEmail (env : Env) (row : EmailRow) : BuildOutcome :=
  match combineEmailAddresses
      [getField row "distribution_emails", getField row "additional_emails"] with
  | none => .skipped
  | some recipients =>
    match buildEmailBody env row with
    | none => .skipped
    | some body =>
      match getAttachments env row with
      | .error e => .threw e
      | .ok atts =>
        let subject := getFinalSubject env row
        let m : Mail := ⟨recipients, subject, body, atts, FROM_EMAIL⟩
        .attempted m (env.transportOk m)

/-! ## `EmailBuilder` constructor of `src/Code.ts` v1.2.1 (subject
sanitization) -/

/-- Second statement of the `EmailBuilder` constructor of `src/Code.ts`
v1.2.1: a truthy `email_subject_template` is passed through
`TextUtils.sanitizeInput`. -/
def builderInitSubject (r : EmailRow) : EmailRow :=
  if getField r "email_subject_template" ≠ "" then
    setField r "email_subject_template"
      (sanitizeInput (getField r "email_subject_template"))
  else r

/-- The constructor of `EmailBuilder` in `src/Code.ts` v1.2.1: truthy
`subject_template_value` and `email_subject_template` fields are passed
through `TextUtils.sanitizeInput` before any rendering happens. -/
def builderInit (row : EmailRow) : EmailRow :=
  if getField row "subject_template_value" ≠ "" then
    builderInitSubject (setField row "subject_template_value"
      (sanitizeInput (getField row "subject_template_value")))
  else builderInitSubject row

/-! ## `EmailProcessor` (`Code.ts` lines 1046–1187) -/

/-- `EmailProcessor.validateRow` (`Code.ts` lines 1159–1169): at least one
recipient field non-empty and a non-empty body template reference. -/
def validateRow (row : EmailRow) : Bool :=
  (getField row "distribution_emails" != "" || getField row "additional_emails" != "") &&
  getField row "email_body_template" != ""

/-- `row.every(cell => !cell)`: the empty-row skip. -/
def rowIsEmpty (row : EmailRow) : Bool :=
  row.fields.all (fun p => p.2 == "")

/-- Observable effects of processing one row inside
`EmailProcessor.sendEmails`: the transport calls made, whether the row was
archived (`moveRowToHistory`: appended to `sent_history` and deleted from
`distributions_to_send`), and whether an error was logged/alerted for it. -/
structure StepResult where
  mailCalls : List Mail
  archived : Bool
  errored : Bool
deriving DecidableEq

/-- One iteration of the row loop of `EmailProcessor.sendEmails`
(`Code.ts` lines 1046–1085): skip empty rows, apply the template (errors
alert and skip), validate (failure skips silently), build and send (a throw
is caught and logged), archive on a successful send. -/
def stepRow (env : Env) (templates : String → Option EmailRow)
    (row : EmailRow) : StepResult :=
  if rowIsEmpty row then ⟨[], false, false⟩
  else
    match applyTemplateIfNeeded templates row with
    | .error _ => ⟨[], false, true⟩
    | .ok r =>
      if !validateRow r then ⟨[], false, false⟩
      else
        match builderSendEmail env r with
        | .skipped => ⟨[], false, false⟩
        | .threw _ => ⟨[], false, true⟩
        | .attempted m ok => ⟨[m], ok, false⟩

/-! ## Well-formed components of an obfuscated address

The shape `a at b dot c` quantified over by the spec: a local part drawn
from the local character class (not opening a comment line), single domain
labels, and whitespace separators (newline-free, so the text is a single
line for the comment-removal pass). -/

/-- A well-formed local part for the obfuscated-address family. -/
def LocalOk (a : List Char) : Prop :=
  a ≠ [] ∧ (∀ c ∈ a, isLocalChar c = true) ∧ ¬ [ '/', '/' ].isPrefixOf a

/-- A well-formed domain label: first and last characters alphanumeric, the
rest alphanumeric or hyphen. -/
def LabelOk (b : List Char) : Prop :=
  b ≠ [] ∧ (∀ c ∈ b, isDomainChar c = true) ∧
  (∀ c, b.head? = some c → isAlnum c = true) ∧
  (∀ c, b.getLast? = some c → isAlnum c = true)

/-- A non-empty newline-free whitespace separator run. -/
def WsOk (w : List Char) : Prop :=
  w ≠ [] ∧ ∀ c ∈ w, isSpace c = true ∧ c ≠ '\n'

/-! ## Concrete sample data used to exercise the theorems -/

/-- A sample `JSON.parse` recognising only the canonical empty-object
text. -/
def demoParse : String → Option Json :=
  fun s => if s = emptyObjectText then some (Json.obj []) else none

/-- A sample `JSON.stringify` producing the canonical empty-object text. -/
def demoStringify : Json → String :=
  fun _ => emptyObjectText

/-- A sample environment: every Drive file exists with 10 bytes and content
`BODY`, rendering succeeds except for the template text `SUBJ`, and the
transport accepts everything. -/
def demoEnv : Env where
  fileSize := fun _ => some 10
  fileContent := fun _ => some "BODY"
  fileBlob := fun _ => some "blob"
  render := fun t _ => if t = "SUBJ" then none else some ("R:" ++ t)
  transportOk := fun _ => true
  jsonParse := demoParse
  jsonStringify := demoStringify

/-- The sample environment with every Drive file one byte over the
attachment ceiling. -/
def bigFileEnv : Env :=
  { demoEnv with fileSize := fun _ => some (MAX_ATTACHMENT_SIZE + 1) }

/-- A sample template store with one template `T` supplying a recipient. -/
def demoTemplates : String → Option EmailRow :=
  fun l => if l = "T" then some ⟨[("distribution_emails", "a@b.c")]⟩ else none

/-- A well-formed Drive reference (at least 25 word characters). -/
def demoBodyRef : String := "abcdefghijklmnopqrstuvwxyz123"

/-- A well-formed Drive reference used as an attachment. -/
def demoAttachmentRef : String := "abcdefghijklmnopqrstuvwxy"

/-- A pending record with empty recipient fields that names template `T`. -/
def cexRow : EmailRow :=
  ⟨[("template_label", "T"), ("email_body_template", demoBodyRef)]⟩

/-! # Lemmas -/

theorem getField_setField_self (r : EmailRow) (k v : String) :
    getField (setField r k v) k = v := by
  simp [getField, setField]

theorem getField_setField_ne (r : EmailRow) (k k' v : String) (h : ¬ k = k') :
    getField (setField r k v) k' = getField r k' := by
  simp only [getField, setField]
  rw [List.find?_cons_of_neg]
  simp [h]

theorem mergeFold_preserves (l : List (String × String)) (row : EmailRow) (k : String)
    (h : getField row k ≠ "") :
    getField (l.foldl (fun r kv =>
      if getField r kv.1 = "" ∧ kv.2 ≠ "" then setField r kv.1 kv.2 else r) row) k
      = getField row k := by
  induction l generalizing row with
  | nil => rfl
  | cons kv t ih =>
    simp only [List.foldl_cons]
    by_cases hc : getField row kv.1 = "" ∧ kv.2 ≠ ""
    · rw [if_pos hc]
      have hk : ¬ (kv.1 = k) := fun he => h (he ▸ hc.1)
      have h2 : getField (setField row kv.1 kv.2) k = getField row k :=
        getField_setField_ne _ _ _ _ hk
      rw [ih (setField row kv.1 kv.2) (by rw [h2]; exact h), h2]
    · rw [if_neg hc]
      exact ih row h

theorem mergeTemplate_preserves (row tpl : EmailRow) (k : String)
    (h : getField row k ≠ "") :
    getField (mergeTemplate row tpl) k = getField row k :=
  mergeFold_preserves tpl.fields row k h

theorem replaceSeqF_amp_all_ne :
    ∀ (fuel : Nat) (cs : List Char), cs.length ≤ fuel →
    (replaceSeqF [ '&' ] [ 'a', 'n', 'd' ] fuel cs).all (fun c => c != '&') = true := by
  intro fuel
  induction fuel with
  | zero =>
    intro cs h
    have hz : cs = [] := List.length_eq_zero.mp (Nat.le_zero.mp h)
    subst hz
    rfl
  | succ n ih =>
    intro cs h
    match cs with
    | [] => rfl
    | c :: rest =>
      simp only [List.length_cons] at h
      rw [replaceSeqF]
      split
      · have hdrop : (c :: rest).drop ([ '&' ] : List Char).length = rest := rfl
        rw [hdrop, List.all_append, Bool.and_eq_true]
        exact ⟨by decide, ih rest (Nat.le_of_succ_le_succ h)⟩
      · rename_i hcond
        have hc : ¬ (c = '&') := by
          intro hce
          exact hcond ⟨by simp, by simp [hce, List.isPrefixOf]⟩
        simp only [List.all_cons, Bool.and_eq_true]
        refine ⟨?_, ih rest (Nat.le_of_succ_le_succ h)⟩
        exact bne_iff_ne.mpr hc

theorem sanitizeInput_all_ne (s : String) :
    (sanitizeInput s).toList.all (fun c => c != '&') = true := by
  unfold sanitizeInput
  by_cases hs : s = ""
  · rw [if_pos hs]
    rfl
  · rw [if_neg hs]
    exact replaceSeqF_amp_all_ne s.toList.length s.toList le_rfl

theorem dedupFirstF_subset :
    ∀ (fuel : Nat) (l : List String) (y : String), y ∈ dedupFirstF fuel l → y ∈ l := by
  intro fuel
  induction fuel with
  | zero =>
    intro l y hy
    simp [dedupFirstF] at hy
  | succ n ih =>
    intro l y hy
    match l with
    | [] => simp [dedupFirstF] at hy
    | x :: xs =>
      simp only [dedupFirstF] at hy
      rcases List.mem_cons.mp hy with rfl | hy2
      · exact List.mem_cons_self _ _
      · exact List.mem_cons_of_mem _ (List.mem_of_mem_filter (ih _ y hy2))

theorem dedupFirstF_nodup :
    ∀ (fuel : Nat) (l : List String), (dedupFirstF fuel l).Nodup := by
  intro fuel
  induction fuel with
  | zero => intro l; simp [dedupFirstF]
  | succ n ih =>
    intro l
    match l with
    | [] => simp [dedupFirstF]
    | x :: xs =>
      simp only [dedupFirstF]
      refine List.nodup_cons.mpr ⟨?_, ih _⟩
      intro hx
      have h2 := List.of_mem_filter (dedupFirstF_subset n _ x hx)
      simp at h2

theorem dedupFirst_nodup (l : List String) : (dedupFirst l).Nodup :=
  dedupFirstF_nodup _ _

theorem dedupFirstF_fuel_irrel :
    ∀ (f1 : Nat) (l : List String) (f2 : Nat), l.length ≤ f1 → l.length ≤ f2 →
      dedupFirstF f1 l = dedupFirstF f2 l := by
  intro f1
  induction f1 with
  | zero =>
    intro l f2 h1 h2
    have hz : l = [] := List.length_eq_zero.mp (Nat.le_zero.mp h1)
    subst hz
    cases f2 <;> rfl
  | succ n ih =>
    intro l f2 h1 h2
    match l with
    | [] => cases f2 <;> rfl
    | x :: xs =>
      match f2 with
      | 0 => simp at h2
      | m + 1 =>
        simp only [dedupFirstF, List.cons.injEq, true_and]
        apply ih
        · have := xs.length_filter_le (fun y => y ≠ x)
          simp only [List.length_cons] at h1
          omega
        · have := xs.length_filter_le (fun y => y ≠ x)
          simp only [List.length_cons] at h2
          omega

theorem dedupFirstF_append_self :
    ∀ (fuel : Nat) (l : List String), (l ++ l).length ≤ fuel →
      dedupFirstF fuel (l ++ l) = dedupFirstF fuel l := by
  intro fuel
  induction fuel with
  | zero => intro l h; rfl
  | succ n ih =>
    intro l h
    match l with
    | [] => rfl
    | x :: xs =>
      have hstep : (x :: xs) ++ (x :: xs) = x :: (xs ++ x :: xs) := rfl
      rw [hstep]
      simp only [dedupFirstF, List.cons.injEq, true_and]
      have hfx : (x :: xs).filter (fun y => y ≠ x) = xs.filter (fun y => y ≠ x) := by
        rw [List.filter_cons]
        simp
      have hfilter : (xs ++ x :: xs).filter (fun y => y ≠ x)
          = xs.filter (fun y => y ≠ x) ++ xs.filter (fun y => y ≠ x) := by
        rw [List.filter_append, hfx]
      rw [hfilter]
      have hlf := xs.length_filter_le (fun y => y ≠ x)
      have hlen2 : (xs.filter (fun y => y ≠ x) ++ xs.filter (fun y => y ≠ x)).length ≤ n := by
        simp only [List.length_append, List.length_cons] at h ⊢
        omega
      rw [ih _ hlen2]

theorem dedupFirst_append_self (l : List String) :
    dedupFirst (l ++ l) = dedupFirst l := by
  unfold dedupFirst
  rw [dedupFirstF_append_self _ _ le_rfl]
  apply dedupFirstF_fuel_irrel
  · simp only [List.length_append]
    omega
  · exact le_rfl

theorem builderInitSubject_subject (r : EmailRow) :
    getField (builderInitSubject r) "email_subject_template"
      = sanitizeInput (getField r "email_subject_template") := by
  unfold builderInitSubject
  by_cases hs : getField r "email_subject_template" = ""
  · rw [if_neg (not_not_intro hs), hs]
    rfl
  · rw [if_pos hs, getField_setField_self]

theorem builderInitSubject_other (r : EmailRow) (k : String)
    (hk : ¬ ("email_subject_template" = k)) :
    getField (builderInitSubject r) k = getField r k := by
  unfold builderInitSubject
  by_cases hs : getField r "email_subject_template" = ""
  · rw [if_neg (not_not_intro hs)]
  · rw [if_pos hs, getField_setField_ne _ _ _ _ hk]

theorem builderInit_subject (row : EmailRow) :
    getField (builderInit row) "email_subject_template"
      = sanitizeInput (getField row "email_subject_template") := by
  unfold builderInit
  by_cases hv : getField row "subject_template_value" = ""
  · rw [if_neg (not_not_intro hv), builderInitSubject_subject]
  · rw [if_pos hv, builderInitSubject_subject,
      getField_setField_ne _ _ _ _ (by decide)]

theorem builderInit_value (row : EmailRow) :
    getField (builderInit row) "subject_template_value"
      = sanitizeInput (getField row "subject_template_value") := by
  unfold builderInit
  by_cases hv : getField row "subject_template_value" = ""
  · rw [if_neg (not_not_intro hv), builderInitSubject_other _ _ (by decide), hv]
    rfl
  · rw [if_pos hv, builderInitSubject_other _ _ (by decide), getField_setField_self]

theorem attachAll_error_of_mem (env : Env) :
    ∀ (toks : List String) (tok e : String),
      tok ∈ toks → processAttachmentToken env tok = .error e →
      ∃ e', attachAll env toks = .error e' := by
  intro toks
  induction toks with
  | nil => intro tok e h; cases h
  | cons t rest ih =>
    intro tok e hmem hproc
    cases hpt : processAttachmentToken env t with
    | error e2 => exact ⟨e2, by simp [attachAll, hpt]⟩
    | ok b =>
      rcases List.mem_cons.mp hmem with rfl | hrest
      · rw [hpt] at hproc; cases hproc
      · obtain ⟨e', he'⟩ := ih tok e hrest hproc
        exact ⟨e', by simp [attachAll, hpt, he']⟩

/-! ### Character-class lemmas for the address matcher -/

theorem toNat_ofNat_small (n : Nat) (h : n < 55296) : (Char.ofNat n).toNat = n := by
  unfold Char.ofNat
  rw [dif_pos (Or.inl h)]
  rfl

theorem upper_toLower_toNat (c : Char) (h : 65 ≤ c.toNat ∧ c.toNat ≤ 90) :
    (Char.toLower c).toNat = c.toNat + 32 := by
  unfold Char.toLower
  rw [if_pos h]
  exact toNat_ofNat_small _ (by omega)

theorem toLower_eq_self_of (c : Char) (h : ¬ (65 ≤ c.toNat ∧ c.toNat ≤ 90)) :
    Char.toLower c = c := by
  unfold Char.toLower
  rw [if_neg h]

theorem toLower_toLower (c : Char) :
    Char.toLower (Char.toLower c) = Char.toLower c := by
  by_cases hu : 65 ≤ c.toNat ∧ c.toNat ≤ 90
  · have ht := upper_toLower_toNat c hu
    apply toLower_eq_self_of
    rw [ht]
    omega
  · rw [toLower_eq_self_of c hu, toLower_eq_self_of c hu]

theorem toLower_eq_of_low (c d : Char) (hd : d.toNat < 65) (h : Char.toLower c = d) :
    c = d := by
  by_cases hu : 65 ≤ c.toNat ∧ c.toNat ≤ 90
  · have ht := upper_toLower_toNat c hu
    rw [h] at ht
    omega
  · rw [toLower_eq_self_of c hu] at h
    exact h

theorem isSpace_cases (c : Char) (h : isSpace c = true) :
    c = ' ' ∨ c = '\t' ∨ c = '\n' ∨ c = '\r' ∨ c = Char.ofNat 11 ∨ c = Char.ofNat 12 := by
  simp only [isSpace, Bool.or_eq_true, beq_iff_eq] at h
  tauto

theorem isSpace_toLower_fixed (c : Char) (h : isSpace c = true) :
    Char.toLower c = c := by
  rcases isSpace_cases c h with rfl | rfl | rfl | rfl | rfl | rfl <;> decide

theorem isSpace_facts (c : Char) (h : isSpace c = true) :
    isLocalChar c = false ∧ isAlnum c = false ∧ isDomainChar c = false ∧
    c ≠ '@' ∧ c ≠ '.' ∧ c ≠ 'a' ∧ c ≠ 'd' ∧ c ≠ '/' := by
  rcases isSpace_cases c h with rfl | rfl | rfl | rfl | rfl | rfl <;> decide

theorem isAlnum_toLower (c : Char) (h : isAlnum c = true) :
    isAlnum (Char.toLower c) = true := by
  by_cases hu : 65 ≤ c.toNat ∧ c.toNat ≤ 90
  · have ht := upper_toLower_toNat c hu
    simp only [isAlnum, ht, Bool.or_eq_true, Bool.and_eq_true, decide_eq_true_eq]
    omega
  · rw [toLower_eq_self_of c hu]
    exact h

theorem isLocalChar_toLower (c : Char) (h : isLocalChar c = true) :
    isLocalChar (Char.toLower c) = true := by
  by_cases hu : 65 ≤ c.toNat ∧ c.toNat ≤ 90
  · have ht := upper_toLower_toNat c hu
    have ha : isAlnum (Char.toLower c) = true := by
      simp only [isAlnum, ht, Bool.or_eq_true, Bool.and_eq_true, decide_eq_true_eq]
      omega
    simp [isLocalChar, ha]
  · rw [toLower_eq_self_of c hu]
    exact h

theorem isDomainChar_toLower (c : Char) (h : isDomainChar c = true) :
    isDomainChar (Char.toLower c) = true := by
  by_cases hu : 65 ≤ c.toNat ∧ c.toNat ≤ 90
  · have ht := upper_toLower_toNat c hu
    have ha : isAlnum (Char.toLower c) = true := by
      simp only [isAlnum, ht, Bool.or_eq_true, Bool.and_eq_true, decide_eq_true_eq]
      omega
    simp [isDomainChar, ha]
  · rw [toLower_eq_self_of c hu]
    exact h

theorem isLocalChar_not_space (c : Char) (h : isLocalChar c = true) :
    isSpace c = false := by
  by_cases hs : isSpace c = true
  · rw [(isSpace_facts c hs).1] at h
    cases h
  · exact Bool.not_eq_true _ ▸ Bool.of_not_eq_true hs

theorem isDomainChar_not_space (c : Char) (h : isDomainChar c = true) :
    isSpace c = false := by
  by_cases hs : isSpace c = true
  · rw [(isSpace_facts c hs).2.2.1] at h
    cases h
  · exact Bool.not_eq_true _ ▸ Bool.of_not_eq_true hs

theorem isLocalChar_ne_dot (c : Char) (h : isLocalChar c = true) : c ≠ '.' := by
  intro he
  subst he
  cases h

theorem isDomainChar_ne_dot (c : Char) (h : isDomainChar c = true) : c ≠ '.' := by
  intro he
  subst he
  cases h

theorem isAlnum_isDomainChar (c : Char) (h : isAlnum c = true) :
    isDomainChar c = true := by
  simp [isDomainChar, h]

theorem not_isDomainChar_not_alnum (c : Char) (h : isDomainChar c = false) :
    isAlnum c = false := by
  by_cases ha : isAlnum c = true
  · rw [isAlnum_isDomainChar c ha] at h
    cases h
  · exact Bool.not_eq_true _ ▸ Bool.of_not_eq_true ha

/-! ### Combinator lemmas for the preference-length matcher -/

theorem head?_append_left {α : Type} (l1 l2 : List α) (h : l1 ≠ []) :
    (l1 ++ l2).head? = l1.head? := by
  cases l1 with
  | nil => exact absurd rfl h
  | cons a t => rfl

theorem takeWhile_stop (p : Char → Bool) (xs ys : List Char)
    (hxs : ∀ x ∈ xs, p x = true)
    (hys : ∀ d, ys.head? = some d → p d = false) :
    (xs ++ ys).takeWhile p = xs := by
  rw [List.takeWhile_append_of_pos hxs]
  cases ys with
  | nil => simp
  | cons d t =>
    rw [List.takeWhile_cons, hys d rfl]
    simp

theorem dropWhile_stop (p : Char → Bool) (xs ys : List Char)
    (hxs : ∀ x ∈ xs, p x = true)
    (hys : ∀ d, ys.head? = some d → p d = false) :
    (xs ++ ys).dropWhile p = ys := by
  rw [List.dropWhile_append_of_pos hxs]
  cases ys with
  | nil => rfl
  | cons d t =>
    rw [List.dropWhile_cons, hys d rfl]
    simp

theorem range_map_sub_head (k : Nat) (h : 0 < k) :
    ∃ t, (List.range k).map (fun i => k - i) = k :: t := by
  obtain ⟨m, rfl⟩ : ∃ m, k = m + 1 := ⟨k - 1, by omega⟩
  rw [List.range_succ_eq_map, List.map_cons, List.map_map]
  refine ⟨List.map ((fun i => m + 1 - i) ∘ Nat.succ) (List.range m), ?_⟩
  norm_num

theorem repeatLensPlus_cons (p : Char → Bool) (cs : List Char)
    (h : 0 < (cs.takeWhile p).length) :
    ∃ t, repeatLensPlus p cs = (cs.takeWhile p).length :: t := by
  unfold repeatLensPlus
  exact range_map_sub_head _ h

theorem repeatLensPlus_nil (p : Char → Bool) (cs : List Char)
    (h : (cs.takeWhile p).length = 0) :
    repeatLensPlus p cs = [] := by
  unfold repeatLensPlus
  rw [h]
  rfl

theorem repeatLensStar_cons (p : Char → Bool) (cs : List Char) :
    ∃ t, repeatLensStar p cs = (cs.takeWhile p).length :: t := by
  unfold repeatLensStar
  rw [List.range_succ_eq_map, List.map_cons, List.map_map]
  refine ⟨List.map ((fun i => (List.takeWhile p cs).length - i) ∘ Nat.succ)
    (List.range (List.takeWhile p cs).length), ?_⟩
  norm_num

theorem repeatLensStar_cons2 (p : Char → Bool) (cs : List Char) (m : Nat)
    (h : (cs.takeWhile p).length = m + 1) :
    ∃ t, repeatLensStar p cs = (m + 1) :: m :: t := by
  unfold repeatLensStar
  rw [h, List.range_succ_eq_map, List.range_succ_eq_map, List.map_cons,
    List.map_map, List.map_cons, List.map_map]
  refine ⟨List.map (((fun i => m + 1 - i) ∘ Nat.succ) ∘ Nat.succ) (List.range m), ?_⟩
  simp [Function.comp]

theorem seqLens_cons_cons (f g : List Char → List Nat) (cs : List Char)
    (n m : Nat) (t u : List Nat)
    (hf : f cs = n :: t) (hg : g (cs.drop n) = m :: u) :
    ∃ r, seqLens f g cs = (n + m) :: r := by
  unfold seqLens
  rw [hf, List.flatMap_cons, hg, List.map_cons]
  exact ⟨_, rfl⟩

theorem seqLens_cons_skip (f g : List Char → List Nat) (cs : List Char)
    (n : Nat) (t : List Nat)
    (hf : f cs = n :: t) (hg : g (cs.drop n) = []) :
    seqLens f g cs = t.flatMap (fun k => (g (cs.drop k)).map (fun m => k + m)) := by
  unfold seqLens
  rw [hf, List.flatMap_cons, hg]
  rfl

theorem seqLens_nil (f g : List Char → List Nat) (cs : List Char)
    (hf : f cs = []) : seqLens f g cs = [] := by
  unfold seqLens
  rw [hf]
  rfl

theorem flatMap_nil_of_all (g : List Char → List Nat) (cs : List Char)
    (hg : ∀ n, g (cs.drop n) = []) :
    ∀ ns : List Nat, ns.flatMap (fun k => (g (cs.drop k)).map (fun m => k + m)) = [] := by
  intro ns
  induction ns with
  | nil => rfl
  | cons a t iht =>
    rw [List.flatMap_cons, hg a, iht]
    rfl

theorem seqLens_nil_of_all (f g : List Char → List Nat) (cs : List Char)
    (hg : ∀ n, g (cs.drop n) = []) :
    seqLens f g cs = [] := by
  unfold seqLens
  exact flatMap_nil_of_all g cs hg (f cs)

theorem starLensF_unit_nil (f : List Char → List Nat) (fuel : Nat) (cs : List Char)
    (hf : f cs = []) : starLensF f fuel cs = [0] := by
  cases fuel with
  | zero => rfl
  | succ n =>
    rw [starLensF, hf]
    rfl

theorem starLens_unit_nil (f : List Char → List Nat) (cs : List Char)
    (hf : f cs = []) : starLens f cs = [0] :=
  starLensF_unit_nil f cs.length cs hf

theorem litLens_exact (lit rest : List Char) :
    litLens lit (lit ++ rest) = [lit.length] := by
  unfold litLens
  rw [if_pos]
  exact List.isPrefixOf_iff_prefix.mpr (List.prefix_append _ _)

theorem litLens_nil (x : Char) (lit' cs : List Char)
    (h : ∀ d, cs.head? = some d → d ≠ x) :
    litLens (x :: lit') cs = [] := by
  unfold litLens
  rw [if_neg]
  cases cs with
  | nil => simp [List.isPrefixOf]
  | cons d t =>
    intro hp
    simp only [List.isPrefixOf_iff_prefix, List.cons_prefix_cons] at hp
    exact (h d rfl) hp.1.symm

theorem charLens_pos (p : Char → Bool) (c : Char) (rest : List Char)
    (h : p c = true) : charLens p (c :: rest) = [1] := by
  simp [charLens, h]

theorem charLens_neg (p : Char → Bool) (cs : List Char)
    (h : ∀ d, cs.head? = some d → p d = false) : charLens p cs = [] := by
  cases cs with
  | nil => rfl
  | cons d t => simp [charLens, h d rfl]

theorem mem_of_head? {l : List Char} {d : Char} (h : l.head? = some d) : d ∈ l := by
  cases l with
  | nil => cases h
  | cons a t =>
    injection h with h
    subst h
    exact List.mem_cons_self _ _

theorem head_all {P : Char → Prop} {l : List Char} (h : ∀ x ∈ l, P x) :
    ∀ d, l.head? = some d → P d :=
  fun d hd => h d (mem_of_head? hd)

theorem repeatLensStar_zero (p : Char → Bool) (cs : List Char)
    (h : (cs.takeWhile p).length = 0) : repeatLensStar p cs = [0] := by
  unfold repeatLensStar
  rw [h]
  rfl

/-! ### The email regex on a canonical obfuscated address -/

theorem localLens_canonical (a rest : List Char)
    (ha : a ≠ []) (haC : ∀ x ∈ a, isLocalChar x = true)
    (hrest : ∀ d, rest.head? = some d → isLocalChar d = false ∧ d ≠ '.') :
    ∃ t, localLens (a ++ rest) = a.length :: t := by
  have htw : (a ++ rest).takeWhile isLocalChar = a :=
    takeWhile_stop _ _ _ haC (fun d hd => (hrest d hd).1)
  obtain ⟨t1, ht1⟩ := repeatLensPlus_cons isLocalChar (a ++ rest)
    (by rw [htw]; exact List.length_pos.mpr ha)
  rw [htw] at ht1
  have hdot : dotAtomLens rest = [] := by
    unfold dotAtomLens
    apply seqLens_nil
    exact litLens_nil '.' [] rest (fun d hd => (hrest d hd).2)
  have hstar : starLens dotAtomLens ((a ++ rest).drop a.length) = 0 :: [] := by
    rw [List.drop_left a rest]
    exact starLens_unit_nil _ _ hdot
  unfold localLens
  obtain ⟨r, hr⟩ := seqLens_cons_cons _ _ (a ++ rest) a.length 0 t1 [] ht1 hstar
  rw [Nat.add_zero] at hr
  exact ⟨r, hr⟩

theorem wsWordLens_canonical (w L w2 rest : List Char)
    (hw : w ≠ []) (hwC : ∀ x ∈ w, isSpace x = true)
    (hL : L ≠ []) (hLhead : ∀ d, L.head? = some d → isSpace d = false)
    (hw2 : w2 ≠ []) (hw2C : ∀ x ∈ w2, isSpace x = true)
    (hrest : ∀ d, rest.head? = some d → isSpace d = false) :
    ∃ t, seqLens wsPlusLens (seqLens (litLens L) wsPlusLens)
      (w ++ (L ++ (w2 ++ rest))) = (w.length + (L.length + w2.length)) :: t := by
  have htw : (w ++ (L ++ (w2 ++ rest))).takeWhile isSpace = w := by
    apply takeWhile_stop _ _ _ hwC
    intro d hd
    rw [head?_append_left L (w2 ++ rest) hL] at hd
    exact hLhead d hd
  obtain ⟨t1, ht1⟩ := repeatLensPlus_cons isSpace _
    (by rw [htw]; exact List.length_pos.mpr hw)
  rw [htw] at ht1
  have htw2 : (w2 ++ rest).takeWhile isSpace = w2 :=
    takeWhile_stop _ _ _ hw2C hrest
  obtain ⟨t2, ht2⟩ := repeatLensPlus_cons isSpace (w2 ++ rest)
    (by rw [htw2]; exact List.length_pos.mpr hw2)
  rw [htw2] at ht2
  obtain ⟨r1, hr1⟩ := seqLens_cons_cons (litLens L) wsPlusLens (L ++ (w2 ++ rest))
    L.length w2.length [] t2 (litLens_exact _ _)
    (by rw [List.drop_left L (w2 ++ rest)]; exact ht2)
  obtain ⟨r2, hr2⟩ := seqLens_cons_cons wsPlusLens (seqLens (litLens L) wsPlusLens)
    (w ++ (L ++ (w2 ++ rest))) w.length (L.length + w2.length) t1 r1
    ht1 (by rw [List.drop_left w (L ++ (w2 ++ rest))]; exact hr1)
  exact ⟨r2, hr2⟩

theorem atSepLens_canonical (w1 w2 rest : List Char)
    (hw1 : w1 ≠ []) (hw1C : ∀ x ∈ w1, isSpace x = true)
    (hw2 : w2 ≠ []) (hw2C : ∀ x ∈ w2, isSpace x = true)
    (hrest : ∀ d, rest.head? = some d → isSpace d = false) :
    ∃ t, atSepLens (w1 ++ ([ 'a', 't' ] ++ (w2 ++ rest)))
      = (w1.length + (2 + w2.length)) :: t := by
  obtain ⟨t, ht⟩ := wsWordLens_canonical w1 [ 'a', 't' ] w2 rest hw1 hw1C
    (by simp) (by intro d hd; injection hd with hd; subst hd; decide)
    hw2 hw2C hrest
  refine ⟨t, ?_⟩
  unfold atSepLens altLens
  rw [litLens_nil '@' [] _ ?_, List.nil_append]
  · simpa using ht
  · intro d hd
    rw [head?_append_left w1 _ hw1] at hd
    exact (isSpace_facts d ((head_all hw1C) d hd)).2.2.2.1

theorem dotSepLens_canonical (w1 w2 rest : List Char)
    (hw1 : w1 ≠ []) (hw1C : ∀ x ∈ w1, isSpace x = true)
    (hw2 : w2 ≠ []) (hw2C : ∀ x ∈ w2, isSpace x = true)
    (hrest : ∀ d, rest.head? = some d → isSpace d = false) :
    ∃ t, dotSepLens (w1 ++ ([ 'd', 'o', 't' ] ++ (w2 ++ rest)))
      = (w1.length + (3 + w2.length)) :: t := by
  obtain ⟨t, ht⟩ := wsWordLens_canonical w1 [ 'd', 'o', 't' ] w2 rest hw1 hw1C
    (by simp) (by intro d hd; injection hd with hd; subst hd; decide)
    hw2 hw2C hrest
  refine ⟨t, ?_⟩
  unfold dotSepLens altLens
  rw [litLens_nil '.' [] _ ?_, List.nil_append]
  · simpa using ht
  · intro d hd
    rw [head?_append_left w1 _ hw1] at hd
    exact (isSpace_facts d ((head_all hw1C) d hd)).2.2.2.2.1

theorem dotSepLens_nil (cs : List Char)
    (h : ∀ d, cs.head? = some d → isSpace d = false ∧ d ≠ '.') :
    dotSepLens cs = [] := by
  unfold dotSepLens altLens
  rw [litLens_nil '.' [] cs (fun d hd => (h d hd).2), List.nil_append]
  apply seqLens_nil
  apply repeatLensPlus_nil
  have := takeWhile_stop isSpace [] cs (by intro x hx; cases hx)
    (fun d hd => (h d hd).1)
  simpa using this

theorem dpartLens_canonical (b rest : List Char)
    (hb : b ≠ []) (hbC : ∀ x ∈ b, isDomainChar x = true)
    (hbh : ∀ c, b.head? = some c → isAlnum c = true)
    (hbl : ∀ c, b.getLast? = some c → isAlnum c = true)
    (hrest : ∀ d, rest.head? = some d → isDomainChar d = false) :
    ∃ t, dpartLens (b ++ rest) = b.length :: t := by
  obtain ⟨x, b', rfl⟩ : ∃ x b', b = x :: b' := by
    cases b with
    | nil => exact absurd rfl hb
    | cons x b' => exact ⟨x, b', rfl⟩
  have hx : isAlnum x = true := hbh x rfl
  have hchar : charLens isAlnum ((x :: b') ++ rest) = [1] := charLens_pos _ _ _ hx
  have hcharRest : charLens isAlnum rest = [] := by
    apply charLens_neg
    intro d hd
    exact not_isDomainChar_not_alnum d (hrest d hd)
  rcases List.eq_nil_or_concat b' with hb' | ⟨bmid, y, hbeq⟩
  · subst hb'
    have hstar : repeatLensStar isDomainChar (([] : List Char) ++ rest) = [0] := by
      apply repeatLensStar_zero
      have := takeWhile_stop isDomainChar [] rest (by intro z hz; cases hz) hrest
      simpa using this
    have hseq : seqLens (repeatLensStar isDomainChar) (charLens isAlnum)
        (([] : List Char) ++ rest) = [] := by
      have h0 := seqLens_cons_skip (repeatLensStar isDomainChar) (charLens isAlnum)
        (([] : List Char) ++ rest) 0 [] hstar (by simpa using hcharRest)
      simpa using h0
    have hopt : optLens (seqLens (repeatLensStar isDomainChar) (charLens isAlnum))
        (((x :: ([] : List Char)) ++ rest).drop 1) = 0 :: [] := by
      show optLens _ (([] : List Char) ++ rest) = 0 :: []
      unfold optLens
      rw [hseq, List.nil_append]
    unfold dpartLens
    obtain ⟨r, hr⟩ := seqLens_cons_cons (charLens isAlnum)
      (optLens (seqLens (repeatLensStar isDomainChar) (charLens isAlnum)))
      ((x :: ([] : List Char)) ++ rest) 1 0 [] [] hchar hopt
    rw [Nat.add_zero] at hr
    exact ⟨r, hr⟩
  · rw [List.concat_eq_append] at hbeq
    subst hbeq
    have hmemC : ∀ z ∈ bmid ++ [y], isDomainChar z = true :=
      fun z hz => hbC z (List.mem_cons_of_mem _ hz)
    have htw : ((bmid ++ [y]) ++ rest).takeWhile isDomainChar = bmid ++ [y] :=
      takeWhile_stop _ _ _ hmemC hrest
    have hlen : (bmid ++ [y]).length = bmid.length + 1 := by simp
    obtain ⟨t0, ht0⟩ := repeatLensStar_cons2 isDomainChar ((bmid ++ [y]) ++ rest)
      bmid.length (by rw [htw, hlen])
    have hy : isAlnum y = true := by
      apply hbl
      show (x :: (bmid ++ [y])).getLast? = some y
      rw [← List.cons_append]
      exact List.getLast?_concat _
    have hdropm : ((bmid ++ [y]) ++ rest).drop bmid.length = y :: rest := by
      rw [List.append_assoc]
      have : [y] ++ rest = y :: rest := rfl
      rw [this]
      exact List.drop_left bmid (y :: rest)
    have hdropm1 : ((bmid ++ [y]) ++ rest).drop (bmid.length + 1) = rest :=
      List.drop_left' hlen
    have hseqInner : ∃ j, seqLens (repeatLensStar isDomainChar) (charLens isAlnum)
        ((bmid ++ [y]) ++ rest) = (bmid.length + 1) :: j := by
      unfold seqLens
      rw [ht0, List.flatMap_cons, hdropm1, hcharRest, List.map_nil,
        List.nil_append, List.flatMap_cons, hdropm,
        charLens_pos _ _ _ hy, List.map_cons, List.map_nil]
      exact ⟨_, rfl⟩
    obtain ⟨j, hj⟩ := hseqInner
    have hopt : optLens (seqLens (repeatLensStar isDomainChar) (charLens isAlnum))
        (((x :: (bmid ++ [y])) ++ rest).drop 1) = (bmid.length + 1) :: (j ++ [0]) := by
      show optLens _ ((bmid ++ [y]) ++ rest) = _
      unfold optLens
      rw [hj]
      rfl
    unfold dpartLens
    obtain ⟨r, hr⟩ := seqLens_cons_cons (charLens isAlnum)
      (optLens (seqLens (repeatLensStar isDomainChar) (charLens isAlnum)))
      ((x :: (bmid ++ [y])) ++ rest) 1 (bmid.length + 1) [] (j ++ [0]) hchar hopt
    refine ⟨r, ?_⟩
    rw [hr]
    congr 1
    simp
    omega

theorem domainGroupLens_nil_on_label (c : List Char)
    (hcC : ∀ x ∈ c, isDomainChar x = true) :
    domainGroupLens c = [] := by
  unfold domainGroupLens
  apply seqLens_nil_of_all
  intro n
  apply dotSepLens_nil
  intro d hd
  have hdm : d ∈ c := List.mem_of_mem_drop (mem_of_head? hd)
  exact ⟨isDomainChar_not_space d (hcC d hdm), isDomainChar_ne_dot d (hcC d hdm)⟩

theorem domainGroupLens_canonical (b w3 w4 c : List Char)
    (hb : b ≠ []) (hbC : ∀ x ∈ b, isDomainChar x = true)
    (hbh : ∀ z, b.head? = some z → isAlnum z = true)
    (hbl : ∀ z, b.getLast? = some z → isAlnum z = true)
    (hw3 : w3 ≠ []) (hw3C : ∀ x ∈ w3, isSpace x = true)
    (hw4 : w4 ≠ []) (hw4C : ∀ x ∈ w4, isSpace x = true)
    (hc : c ≠ []) (hcC : ∀ x ∈ c, isDomainChar x = true) :
    ∃ t, domainGroupLens (b ++ (w3 ++ ([ 'd', 'o', 't' ] ++ (w4 ++ c))))
      = (b.length + (w3.length + (3 + w4.length))) :: t := by
  have hrest1 : ∀ d, (w3 ++ ([ 'd', 'o', 't' ] ++ (w4 ++ c))).head? = some d →
      isDomainChar d = false := by
    intro d hd
    rw [head?_append_left w3 _ hw3] at hd
    exact (isSpace_facts d (head_all hw3C d hd)).2.2.1
  have hrestc : ∀ d, c.head? = some d → isSpace d = false := by
    intro d hd
    exact isDomainChar_not_space d (hcC d (mem_of_head? hd))
  obtain ⟨t1, ht1⟩ := dpartLens_canonical b _ hb hbC hbh hbl hrest1
  obtain ⟨t2, ht2⟩ := dotSepLens_canonical w3 w4 c hw3 hw3C hw4 hw4C hrestc
  unfold domainGroupLens
  exact seqLens_cons_cons _ _ _ _ _ _ _ ht1
    (by rw [List.drop_left b _]; exact ht2)

theorem domainLens_canonical (b w3 w4 c : List Char)
    (hb : b ≠ []) (hbC : ∀ x ∈ b, isDomainChar x = true)
    (hbh : ∀ z, b.head? = some z → isAlnum z = true)
    (hbl : ∀ z, b.getLast? = some z → isAlnum z = true)
    (hw3 : w3 ≠ []) (hw3C : ∀ x ∈ w3, isSpace x = true)
    (hw4 : w4 ≠ []) (hw4C : ∀ x ∈ w4, isSpace x = true)
    (hc : c ≠ []) (hcC : ∀ x ∈ c, isDomainChar x = true)
    (hch : ∀ z, c.head? = some z → isAlnum z = true)
    (hcl : ∀ z, c.getLast? = some z → isAlnum z = true) :
    ∃ t, domainLens (b ++ (w3 ++ ([ 'd', 'o', 't' ] ++ (w4 ++ c))))
      = ((b.length + (w3.length + (3 + w4.length))) + c.length) :: t := by
  obtain ⟨t1, ht1⟩ := domainGroupLens_canonical b w3 w4 c hb hbC hbh hbl
    hw3 hw3C hw4 hw4C hc hcC
  have hassoc : b ++ (w3 ++ ([ 'd', 'o', 't' ] ++ (w4 ++ c)))
      = (b ++ (w3 ++ ([ 'd', 'o', 't' ] ++ w4))) ++ c := by
    simp [List.append_assoc]
  have hplen : (b ++ (w3 ++ ([ 'd', 'o', 't' ] ++ w4))).length
      = b.length + (w3.length + (3 + w4.length)) := by
    simp only [List.length_append, List.length_cons, List.length_nil]
    try omega
  have hdropG : (b ++ (w3 ++ ([ 'd', 'o', 't' ] ++ (w4 ++ c)))).drop
      (b.length + (w3.length + (3 + w4.length))) = c := by
    rw [hassoc]
    exact List.drop_left' hplen
  have hGc : domainGroupLens c = [] := domainGroupLens_nil_on_label c hcC
  have hstar : starLens domainGroupLens
      ((b ++ (w3 ++ ([ 'd', 'o', 't' ] ++ (w4 ++ c)))).drop
        (b.length + (w3.length + (3 + w4.length)))) = 0 :: [] := by
    rw [hdropG]
    exact starLens_unit_nil _ _ hGc
  obtain ⟨t2, ht2⟩ := seqLens_cons_cons domainGroupLens (starLens domainGroupLens)
    _ _ 0 t1 [] ht1 hstar
  rw [Nat.add_zero] at ht2
  obtain ⟨t3, ht3⟩ := dpartLens_canonical c [] hc hcC hch hcl (by intro d hd; cases hd)
  rw [List.append_nil] at ht3
  unfold domainLens
  exact seqLens_cons_cons (plusLens domainGroupLens) dpartLens _ _ c.length t2 t3
    ht2 (by rw [hdropG]; exact ht3)

theorem emailLens_canonical (a w1 w2 b w3 w4 c : List Char)
    (ha : a ≠ []) (haC : ∀ x ∈ a, isLocalChar x = true)
    (hw1 : w1 ≠ []) (hw1C : ∀ x ∈ w1, isSpace x = true)
    (hw2 : w2 ≠ []) (hw2C : ∀ x ∈ w2, isSpace x = true)
    (hb : b ≠ []) (hbC : ∀ x ∈ b, isDomainChar x = true)
    (hbh : ∀ z, b.head? = some z → isAlnum z = true)
    (hbl : ∀ z, b.getLast? = some z → isAlnum z = true)
    (hw3 : w3 ≠ []) (hw3C : ∀ x ∈ w3, isSpace x = true)
    (hw4 : w4 ≠ []) (hw4C : ∀ x ∈ w4, isSpace x = true)
    (hc : c ≠ []) (hcC : ∀ x ∈ c, isDomainChar x = true)
    (hch : ∀ z, c.head? = some z → isAlnum z = true)
    (hcl : ∀ z, c.getLast? = some z → isAlnum z = true) :
    ∃ t, emailLens (a ++ (w1 ++ ([ 'a', 't' ] ++ (w2 ++
        (b ++ (w3 ++ ([ 'd', 'o', 't' ] ++ (w4 ++ c))))))))
      = (a.length + ((w1.length + (2 + w2.length)) +
          ((b.length + (w3.length + (3 + w4.length))) + c.length))) :: t := by
  have hbodyHeadSpace : ∀ d, (b ++ (w3 ++ ([ 'd', 'o', 't' ] ++ (w4 ++ c)))).head?
      = some d → isSpace d = false := by
    intro d hd
    rw [head?_append_left b _ hb] at hd
    exact isDomainChar_not_space d (hbC d (mem_of_head? hd))
  have hlocRest : ∀ d, (w1 ++ ([ 'a', 't' ] ++ (w2 ++ (b ++ (w3 ++ ([ 'd', 'o', 't' ] ++ (w4 ++ c))))))).head?
      = some d → isLocalChar d = false ∧ d ≠ '.' := by
    intro d hd
    rw [head?_append_left w1 _ hw1] at hd
    have hs := head_all hw1C d hd
    exact ⟨(isSpace_facts d hs).1, (isSpace_facts d hs).2.2.2.2.1⟩
  obtain ⟨t1, ht1⟩ := localLens_canonical a
    (w1 ++ ([ 'a', 't' ] ++ (w2 ++ (b ++ (w3 ++ ([ 'd', 'o', 't' ] ++ (w4 ++ c)))))))
    ha haC hlocRest
  obtain ⟨t2, ht2⟩ := atSepLens_canonical w1 w2
    (b ++ (w3 ++ ([ 'd', 'o', 't' ] ++ (w4 ++ c)))) hw1 hw1C hw2 hw2C hbodyHeadSpace
  obtain ⟨t3, ht3⟩ := domainLens_canonical b w3 w4 c hb hbC hbh hbl
    hw3 hw3C hw4 hw4C hc hcC hch hcl
  have hassoc2 : w1 ++ ([ 'a', 't' ] ++ (w2 ++ (b ++ (w3 ++ ([ 'd', 'o', 't' ] ++ (w4 ++ c))))))
      = (w1 ++ ([ 'a', 't' ] ++ w2)) ++ (b ++ (w3 ++ ([ 'd', 'o', 't' ] ++ (w4 ++ c)))) := by
    simp [List.append_assoc]
  have hslen : (w1 ++ ([ 'a', 't' ] ++ w2)).length = w1.length + (2 + w2.length) := by
    simp only [List.length_append, List.length_cons, List.length_nil]
    try omega
  have hdropSep : (w1 ++ ([ 'a', 't' ] ++ (w2 ++ (b ++ (w3 ++ ([ 'd', 'o', 't' ] ++ (w4 ++ c))))))).drop
      (w1.length + (2 + w2.length)) = b ++ (w3 ++ ([ 'd', 'o', 't' ] ++ (w4 ++ c))) := by
    rw [hassoc2]
    exact List.drop_left' hslen
  obtain ⟨t4, ht4⟩ := seqLens_cons_cons atSepLens domainLens _
    (w1.length + (2 + w2.length))
    ((b.length + (w3.length + (3 + w4.length))) + c.length) t2 t3
    ht2 (by rw [hdropSep]; exact ht3)
  unfold emailLens
  exact seqLens_cons_cons localLens (seqLens atSepLens domainLens) _
    a.length _ t1 t4 ht1
    (by rw [List.drop_left a _]; exact ht4)

theorem emailLens_nil : emailLens [] = [] := rfl

theorem execLoop_at_end (cs : List Char) (fuel : Nat) :
    execLoop cs cs.length fuel = [] := by
  cases fuel with
  | zero => rfl
  | succ k =>
    rw [execLoop]
    have hfm2 : firstMatchFrom cs cs.length (cs.length + 1 - cs.length) = none := by
      have h1 : cs.length + 1 - cs.length = 1 := by omega
      rw [h1, firstMatchFrom, List.drop_length, emailLens_nil]
      simp
    rw [hfm2]

theorem execLoop_single (cs : List Char) (t : List Nat)
    (ht : emailLens cs = cs.length :: t) :
    execLoop cs 0 (cs.length + 1) = [cs] := by
  have hfm : firstMatchFrom cs 0 (cs.length + 1 - 0) = some (0, cs.length) := by
    have h0 : cs.length + 1 - 0 = cs.length + 1 := rfl
    rw [h0, firstMatchFrom, List.drop_zero, ht]
  rw [execLoop, hfm]
  show List.take cs.length (List.drop 0 cs) :: execLoop cs (0 + cs.length) cs.length = [cs]
  rw [List.drop_zero, List.take_length, Nat.zero_add]
  rw [execLoop_at_end cs cs.length]

theorem splitLinesL_no_newline (cs : List Char) (h : ∀ x ∈ cs, x ≠ '\n') :
    splitLinesL cs = [cs] := by
  induction cs with
  | nil => rfl
  | cons c rest ih =>
    rw [splitLinesL, if_neg (h c (List.mem_cons_self _ _)),
      ih (fun x hx => h x (List.mem_cons_of_mem _ hx))]

theorem removeCommentLines_id (cs : List Char) (hnl : ∀ x ∈ cs, x ≠ '\n')
    (hcm : ¬ ([ '/', '/' ] : List Char).isPrefixOf cs = true) :
    removeCommentLines cs = cs := by
  unfold removeCommentLines
  rw [splitLinesL_no_newline cs hnl]
  have hsc : stripComment cs = cs := by
    unfold stripComment
    split
    · exfalso
      apply hcm
      simp [List.isPrefixOf]
    · rfl
  rw [List.map_cons, List.map_nil, hsc]
  simp [List.intercalate]

theorem replaceAtDotF_fuel_irrel :
    ∀ (f1 : Nat) (cs : List Char) (f2 : Nat), cs.length ≤ f1 → cs.length ≤ f2 →
      replaceAtDotF f1 cs = replaceAtDotF f2 cs := by
  intro f1
  induction f1 with
  | zero =>
    intro cs f2 h1 h2
    have hz : cs = [] := List.length_eq_zero.mp (Nat.le_zero.mp h1)
    subst hz
    cases f2 <;> rfl
  | succ n ih =>
    intro cs f2 h1 h2
    match cs, f2 with
    | [], f2 => cases f2 <;> rfl
    | c :: rest, 0 => simp at h2
    | c :: rest, m + 1 =>
      simp only [List.length_cons] at h1 h2
      have h1' : rest.length ≤ n := Nat.le_of_succ_le_succ h1
      have h2' : rest.length ≤ m := Nat.le_of_succ_le_succ h2
      simp only [replaceAtDotF]
      by_cases hsp : isSpace c
      · rw [if_pos hsp, if_pos hsp]
        have hdw : (rest.dropWhile isSpace).length ≤ rest.length :=
          (List.dropWhile_sublist _).length_le
        generalize hgen : rest.dropWhile isSpace = dw
        rw [hgen] at hdw
        split
        · rename_i d t2
          have ht2 : (t2.dropWhile isSpace).length ≤ t2.length :=
            (List.dropWhile_sublist _).length_le
          simp only [List.length_cons] at hdw
          by_cases hd : isSpace d
          · rw [if_pos hd, if_pos hd]
            congr 1
            apply ih _ m (by omega) (by omega)
          · rw [if_neg hd, if_neg hd]
            congr 1
            apply ih _ m (by (try simp only [List.length_cons]); omega) (by (try simp only [List.length_cons]); omega)
        · rename_i d t2
          have ht2 : (t2.dropWhile isSpace).length ≤ t2.length :=
            (List.dropWhile_sublist _).length_le
          simp only [List.length_cons] at hdw
          by_cases hd : isSpace d
          · rw [if_pos hd, if_pos hd]
            congr 1
            apply ih _ m (by omega) (by omega)
          · rw [if_neg hd, if_neg hd]
            congr 1
            apply ih _ m (by (try simp only [List.length_cons]); omega) (by (try simp only [List.length_cons]); omega)
        · congr 1
          apply ih _ m (by omega) (by omega)
      · rw [if_neg hsp, if_neg hsp]
        congr 1
        exact ih rest m h1' h2'

theorem replaceAtDot_cons_nonspace (x : Char) (rest : List Char)
    (hx : isSpace x = false) :
    replaceAtDot (x :: rest) = x :: replaceAtDot rest := by
  unfold replaceAtDot
  rw [List.length_cons, replaceAtDotF, if_neg (by simp [hx])]

theorem replaceAtDot_prefix_nonspace (a rest : List Char)
    (haC : ∀ x ∈ a, isSpace x = false) :
    replaceAtDot (a ++ rest) = a ++ replaceAtDot rest := by
  induction a with
  | nil => rfl
  | cons x a' ih =>
    rw [List.cons_append,
      replaceAtDot_cons_nonspace x _ (haC x (List.mem_cons_self _ _)),
      ih (fun z hz => haC z (List.mem_cons_of_mem _ hz)), List.cons_append]

theorem replaceAtDot_all_nonspace (a : List Char)
    (haC : ∀ x ∈ a, isSpace x = false) :
    replaceAtDot a = a := by
  have h := replaceAtDot_prefix_nonspace a [] haC
  have hz : replaceAtDot ([] : List Char) = [] := rfl
  rw [hz, List.append_nil] at h
  exact h

theorem replaceAtDot_at (w1 w2 rest : List Char)
    (hw1 : w1 ≠ []) (hw1C : ∀ x ∈ w1, isSpace x = true)
    (hw2 : w2 ≠ []) (hw2C : ∀ x ∈ w2, isSpace x = true)
    (hrest : ∀ d, rest.head? = some d → isSpace d = false) :
    replaceAtDot (w1 ++ ([ 'a', 't' ] ++ (w2 ++ rest))) = '@' :: replaceAtDot rest := by
  obtain ⟨s, w1', rfl⟩ : ∃ s w1', w1 = s :: w1' := by
    cases w1 with
    | nil => exact absurd rfl hw1
    | cons s w1' => exact ⟨s, w1', rfl⟩
  obtain ⟨s2, w2', rfl⟩ : ∃ s2 w2', w2 = s2 :: w2' := by
    cases w2 with
    | nil => exact absurd rfl hw2
    | cons s2 w2' => exact ⟨s2, w2', rfl⟩
  have hs : isSpace s = true := hw1C s (List.mem_cons_self _ _)
  have hs2 : isSpace s2 = true := hw2C s2 (List.mem_cons_self _ _)
  unfold replaceAtDot
  rw [List.cons_append, List.length_cons, replaceAtDotF, if_pos hs]
  have hdw : (w1' ++ ([ 'a', 't' ] ++ ((s2 :: w2') ++ rest))).dropWhile isSpace
      = 'a' :: 't' :: s2 :: (w2' ++ rest) := by
    rw [dropWhile_stop isSpace w1' _ (fun z hz => hw1C z (List.mem_cons_of_mem _ hz))
      (by intro d hd; injection hd with hd; subst hd; decide)]
    rfl
  simp only [hdw, if_pos hs2]
  have hdw2 : (w2' ++ rest).dropWhile isSpace = rest :=
    dropWhile_stop isSpace w2' rest (fun z hz => hw2C z (List.mem_cons_of_mem _ hz)) hrest
  rw [hdw2]
  congr 1
  apply replaceAtDotF_fuel_irrel
  · simp only [List.length_append, List.length_cons]
    omega
  · exact le_rfl

theorem replaceAtDot_dot (w1 w2 rest : List Char)
    (hw1 : w1 ≠ []) (hw1C : ∀ x ∈ w1, isSpace x = true)
    (hw2 : w2 ≠ []) (hw2C : ∀ x ∈ w2, isSpace x = true)
    (hrest : ∀ d, rest.head? = some d → isSpace d = false) :
    replaceAtDot (w1 ++ ([ 'd', 'o', 't' ] ++ (w2 ++ rest))) = '.' :: replaceAtDot rest := by
  obtain ⟨s, w1', rfl⟩ : ∃ s w1', w1 = s :: w1' := by
    cases w1 with
    | nil => exact absurd rfl hw1
    | cons s w1' => exact ⟨s, w1', rfl⟩
  obtain ⟨s2, w2', rfl⟩ : ∃ s2 w2', w2 = s2 :: w2' := by
    cases w2 with
    | nil => exact absurd rfl hw2
    | cons s2 w2' => exact ⟨s2, w2', rfl⟩
  have hs : isSpace s = true := hw1C s (List.mem_cons_self _ _)
  have hs2 : isSpace s2 = true := hw2C s2 (List.mem_cons_self _ _)
  unfold replaceAtDot
  rw [List.cons_append, List.length_cons, replaceAtDotF, if_pos hs]
  have hdw : (w1' ++ ([ 'd', 'o', 't' ] ++ ((s2 :: w2') ++ rest))).dropWhile isSpace
      = 'd' :: 'o' :: 't' :: s2 :: (w2' ++ rest) := by
    rw [dropWhile_stop isSpace w1' _ (fun z hz => hw1C z (List.mem_cons_of_mem _ hz))
      (by intro d hd; injection hd with hd; subst hd; decide)]
    rfl
  simp only [hdw, if_pos hs2]
  have hdw2 : (w2' ++ rest).dropWhile isSpace = rest :=
    dropWhile_stop isSpace w2' rest (fun z hz => hw2C z (List.mem_cons_of_mem _ hz)) hrest
  rw [hdw2]
  congr 1
  apply replaceAtDotF_fuel_irrel
  · simp only [List.length_append, List.length_cons]
    omega
  · exact le_rfl

theorem mapToLower_fixed (l : List Char) (h : ∀ x ∈ l, Char.toLower x = x) :
    jsToLowerL l = l :=
  (List.map_congr_left h).trans (List.map_id l)

theorem mapToLower_space (w : List Char) (hw : ∀ x ∈ w, isSpace x = true) :
    jsToLowerL w = w :=
  mapToLower_fixed w (fun x hx => isSpace_toLower_fixed x (hw x hx))

theorem mem_jsToLowerL_fixed (l : List Char) (x : Char) (h : x ∈ jsToLowerL l) :
    Char.toLower x = x := by
  obtain ⟨y, _, rfl⟩ := List.mem_map.mp h
  exact toLower_toLower y

theorem toLower_eq_slash (c : Char) (h : Char.toLower c = '/') : c = '/' :=
  toLower_eq_of_low c '/' (by decide) h

theorem jsToLowerL_append (x y : List Char) :
    jsToLowerL (x ++ y) = jsToLowerL x ++ jsToLowerL y :=
  List.map_append _ x y

theorem jsToLowerL_at : jsToLowerL [ 'a', 't' ] = [ 'a', 't' ] := by decide

theorem jsToLowerL_dot : jsToLowerL [ 'd', 'o', 't' ] = [ 'd', 'o', 't' ] := by decide

theorem isSpace_ne_newline (x : Char) (hx : isSpace x = false) : x ≠ '\n' :=
  fun he => absurd (he ▸ hx) (by decide)

theorem slashPrefix_append (a rest : List Char) (ha : a ≠ [])
    (haP : ¬ ([ '/', '/' ] : List Char).isPrefixOf a = true)
    (hrest : ∀ d, rest.head? = some d → d ≠ '/') :
    ¬ ([ '/', '/' ] : List Char).isPrefixOf (a ++ rest) = true := by
  cases a with
  | nil => exact absurd rfl ha
  | cons x as =>
    cases as with
    | nil =>
      intro hP
      rw [List.cons_append, List.nil_append] at hP
      cases rest with
      | nil => simp [List.isPrefixOf] at hP
      | cons d rs =>
        simp only [List.isPrefixOf, Bool.and_eq_true, beq_iff_eq] at hP
        exact hrest d rfl hP.2.1.symm
    | cons y a2 =>
      intro hP
      apply haP
      rw [List.cons_append, List.cons_append] at hP
      simp only [List.isPrefixOf, Bool.and_eq_true, beq_iff_eq] at hP ⊢
      exact ⟨hP.1, hP.2.1, trivial⟩

theorem slashPrefix_toLower (a : List Char)
    (hP : ([ '/', '/' ] : List Char).isPrefixOf (jsToLowerL a) = true) :
    ([ '/', '/' ] : List Char).isPrefixOf a = true := by
  cases a with
  | nil => exact absurd hP (by decide)
  | cons x as =>
    cases as with
    | nil => simp [jsToLowerL, List.isPrefixOf] at hP
    | cons y a2 =>
      simp only [jsToLowerL, List.map_cons, List.isPrefixOf, Bool.and_eq_true,
        beq_iff_eq] at hP ⊢
      exact ⟨(toLower_eq_slash x hP.1.symm).symm, (toLower_eq_slash y hP.2.1.symm).symm, trivial⟩

theorem startsSlashSlash_false (l : List Char)
    (h : ¬ ([ '/', '/' ] : List Char).isPrefixOf l = true) :
    startsSlashSlash l = false := by
  unfold startsSlashSlash
  split
  · exfalso
    apply h
    simp [List.isPrefixOf]
  · rfl

theorem execLoop_mem (cs : List Char) :
    ∀ (fuel pos : Nat) (m : List Char), m ∈ execLoop cs pos fuel → ∀ x ∈ m, x ∈ cs := by
  intro fuel
  induction fuel with
  | zero =>
    intro pos m hm
    cases hm
  | succ k ih =>
    intro pos m hm x hx
    rw [execLoop] at hm
    revert hm
    cases hfm : firstMatchFrom cs pos (cs.length + 1 - pos) with
    | none =>
      intro hm
      cases hm
    | some pr =>
      obtain ⟨st, n⟩ := pr
      intro hm
      rcases List.mem_cons.mp hm with rfl | hrec
      · exact List.drop_subset st cs (List.take_subset n (cs.drop st) hx)
      · exact ih (st + n) m hrec x hx

theorem replaceAtDotF_mem :
    ∀ (fuel : Nat) (cs : List Char) (x : Char), x ∈ replaceAtDotF fuel cs →
      x ∈ cs ∨ x = '@' ∨ x = '.' := by
  intro fuel
  induction fuel with
  | zero =>
    intro cs x hx
    exact Or.inl hx
  | succ k ih =>
    intro cs x hx
    cases cs with
    | nil => cases hx
    | cons c rest =>
      rw [replaceAtDotF] at hx
      by_cases hsp : isSpace c
      · rw [if_pos hsp] at hx
        have hElse : x ∈ (c :: rest.takeWhile isSpace) ++ replaceAtDotF k (rest.dropWhile isSpace) →
            x ∈ c :: rest ∨ x = '@' ∨ x = '.' := by
          intro hy
          rcases List.mem_append.mp hy with hy1 | hy2
          · rcases List.mem_cons.mp hy1 with rfl | hy1
            · exact Or.inl (List.mem_cons_self _ _)
            · exact Or.inl (List.mem_cons_of_mem _ (List.takeWhile_subset isSpace hy1))
          · rcases ih _ x hy2 with hy2 | hy2
            · exact Or.inl (List.mem_cons_of_mem _ (List.dropWhile_subset isSpace hy2))
            · exact Or.inr hy2
        revert hx
        split
        · rename_i d t2 heq
          have hsub : ∀ z ∈ t2, z ∈ rest := by
            intro z hz
            apply List.dropWhile_subset isSpace
            rw [heq]
            exact List.mem_cons_of_mem _ (List.mem_cons_of_mem _ (List.mem_cons_of_mem _ hz))
          intro hx
          by_cases hd : isSpace d
          · rw [if_pos hd] at hx
            rcases List.mem_cons.mp hx with rfl | hx
            · exact Or.inr (Or.inl rfl)
            · rcases ih _ x hx with hx | hx
              · exact Or.inl (List.mem_cons_of_mem _ (hsub x (List.dropWhile_subset isSpace hx)))
              · exact Or.inr hx
          · rw [if_neg hd] at hx
            exact hElse hx
        · rename_i d t2 heq
          have hsub : ∀ z ∈ t2, z ∈ rest := by
            intro z hz
            apply List.dropWhile_subset isSpace
            rw [heq]
            exact List.mem_cons_of_mem _ (List.mem_cons_of_mem _ (List.mem_cons_of_mem _
              (List.mem_cons_of_mem _ hz)))
          intro hx
          by_cases hd : isSpace d
          · rw [if_pos hd] at hx
            rcases List.mem_cons.mp hx with rfl | hx
            · exact Or.inr (Or.inr rfl)
            · rcases ih _ x hx with hx | hx
              · exact Or.inl (List.mem_cons_of_mem _ (hsub x (List.dropWhile_subset isSpace hx)))
              · exact Or.inr hx
          · rw [if_neg hd] at hx
            exact hElse hx
        · intro hx
          exact hElse hx
      · rw [if_neg hsp] at hx
        rcases List.mem_cons.mp hx with rfl | hx
        · exact Or.inl (List.mem_cons_self _ _)
        · rcases ih _ x hx with hx | hx
          · exact Or.inl (List.mem_cons_of_mem _ hx)
          · exact Or.inr hx

theorem parseEmailAddresses_eq (input : String) (h : ¬ input = "") :
    parseEmailAddresses input
      = ((execLoop (jsToLowerL (removeCommentLines input.toList)) 0
          ((jsToLowerL (removeCommentLines input.toList)).length + 1)).filter
            (fun m => !startsSlashSlash m)).map (fun m => String.mk (replaceAtDot m)) := by
  unfold parseEmailAddresses
  rw [if_neg h]

theorem parseEmailAddresses_canonical (a w1 w2 b w3 w4 c : List Char)
    (hA : LocalOk a) (hW1 : WsOk w1) (hW2 : WsOk w2) (hB : LabelOk b)
    (hW3 : WsOk w3) (hW4 : WsOk w4) (hC : LabelOk c) :
    parseEmailAddresses (String.mk (a ++ (w1 ++ ([ 'a', 't' ] ++ (w2 ++
        (b ++ (w3 ++ ([ 'd', 'o', 't' ] ++ (w4 ++ c)))))))))
      = [String.mk (jsToLowerL a ++ ('@' :: (jsToLowerL b ++ ('.' :: jsToLowerL c))))] := by
  obtain ⟨ha, haC, haP⟩ := hA
  obtain ⟨hw1n, hw1C⟩ := hW1
  obtain ⟨hw2n, hw2C⟩ := hW2
  obtain ⟨hb, hbC, hbh, hbl⟩ := hB
  obtain ⟨hw3n, hw3C⟩ := hW3
  obtain ⟨hw4n, hw4C⟩ := hW4
  obtain ⟨hc, hcC, hch, hcl⟩ := hC
  have hw1S : ∀ x ∈ w1, isSpace x = true := fun x hx => (hw1C x hx).1
  have hw2S : ∀ x ∈ w2, isSpace x = true := fun x hx => (hw2C x hx).1
  have hw3S : ∀ x ∈ w3, isSpace x = true := fun x hx => (hw3C x hx).1
  have hw4S : ∀ x ∈ w4, isSpace x = true := fun x hx => (hw4C x hx).1
  have hne : ¬ (String.mk (a ++ (w1 ++ ([ 'a', 't' ] ++ (w2 ++
      (b ++ (w3 ++ ([ 'd', 'o', 't' ] ++ (w4 ++ c)))))))) = "") := by
    intro h
    apply ha
    have h2 := congrArg String.data h
    exact (List.append_eq_nil.mp h2).1
  rw [parseEmailAddresses_eq _ hne]
  have hIl : (String.mk (a ++ (w1 ++ ([ 'a', 't' ] ++ (w2 ++
      (b ++ (w3 ++ ([ 'd', 'o', 't' ] ++ (w4 ++ c))))))))).toList
      = a ++ (w1 ++ ([ 'a', 't' ] ++ (w2 ++ (b ++ (w3 ++ ([ 'd', 'o', 't' ] ++ (w4 ++ c))))))) := rfl
  rw [hIl]
  have hnl : ∀ x ∈ a ++ (w1 ++ ([ 'a', 't' ] ++ (w2 ++
      (b ++ (w3 ++ ([ 'd', 'o', 't' ] ++ (w4 ++ c))))))), x ≠ '\n' := by
    intro x hx
    simp only [List.mem_append, List.mem_cons, List.not_mem_nil, or_false] at hx
    rcases hx with h | h | (rfl | rfl) | h | h | h | (rfl | rfl | rfl) | h | h
    · exact isSpace_ne_newline x (isLocalChar_not_space x (haC x h))
    · exact (hw1C x h).2
    · decide
    · decide
    · exact (hw2C x h).2
    · exact isSpace_ne_newline x (isDomainChar_not_space x (hbC x h))
    · exact (hw3C x h).2
    · decide
    · decide
    · decide
    · exact (hw4C x h).2
    · exact isSpace_ne_newline x (isDomainChar_not_space x (hcC x h))
  have hbody2 : ∀ d, (w1 ++ ([ 'a', 't' ] ++ (w2 ++
      (b ++ (w3 ++ ([ 'd', 'o', 't' ] ++ (w4 ++ c))))))).head? = some d → d ≠ '/' := by
    intro d hd
    rw [head?_append_left w1 _ hw1n] at hd
    exact (isSpace_facts d (head_all hw1S d hd)).2.2.2.2.2.2.2
  have hcm : ¬ ([ '/', '/' ] : List Char).isPrefixOf (a ++ (w1 ++ ([ 'a', 't' ] ++ (w2 ++
      (b ++ (w3 ++ ([ 'd', 'o', 't' ] ++ (w4 ++ c)))))))) = true :=
    slashPrefix_append a _ ha haP hbody2
  rw [removeCommentLines_id _ hnl hcm]
  have hclean : jsToLowerL (a ++ (w1 ++ ([ 'a', 't' ] ++ (w2 ++
      (b ++ (w3 ++ ([ 'd', 'o', 't' ] ++ (w4 ++ c))))))))
      = jsToLowerL a ++ (w1 ++ ([ 'a', 't' ] ++ (w2 ++
        (jsToLowerL b ++ (w3 ++ ([ 'd', 'o', 't' ] ++ (w4 ++ jsToLowerL c))))))) := by
    simp only [jsToLowerL_append, jsToLowerL_at, jsToLowerL_dot,
      mapToLower_space w1 hw1S, mapToLower_space w2 hw2S,
      mapToLower_space w3 hw3S, mapToLower_space w4 hw4S]
  rw [hclean]
  have hAne : jsToLowerL a ≠ [] := fun h => ha (List.map_eq_nil_iff.mp h)
  have hBne : jsToLowerL b ≠ [] := fun h => hb (List.map_eq_nil_iff.mp h)
  have hCne : jsToLowerL c ≠ [] := fun h => hc (List.map_eq_nil_iff.mp h)
  have hAC : ∀ x ∈ jsToLowerL a, isLocalChar x = true := by
    intro x hx
    obtain ⟨y, hy, rfl⟩ := List.mem_map.mp hx
    exact isLocalChar_toLower y (haC y hy)
  have hBC : ∀ x ∈ jsToLowerL b, isDomainChar x = true := by
    intro x hx
    obtain ⟨y, hy, rfl⟩ := List.mem_map.mp hx
    exact isDomainChar_toLower y (hbC y hy)
  have hCC : ∀ x ∈ jsToLowerL c, isDomainChar x = true := by
    intro x hx
    obtain ⟨y, hy, rfl⟩ := List.mem_map.mp hx
    exact isDomainChar_toLower y (hcC y hy)
  have hBh : ∀ z, (jsToLowerL b).head? = some z → isAlnum z = true := by
    intro z hz
    have hz2 : (List.map Char.toLower b).head? = some z := hz
    rw [List.head?_map] at hz2
    obtain ⟨y, hy, rfl⟩ := Option.map_eq_some'.mp hz2
    exact isAlnum_toLower y (hbh y hy)
  have hBl : ∀ z, (jsToLowerL b).getLast? = some z → isAlnum z = true := by
    intro z hz
    have hz2 : (List.map Char.toLower b).getLast? = some z := hz
    rw [List.getLast?_map] at hz2
    obtain ⟨y, hy, rfl⟩ := Option.map_eq_some'.mp hz2
    exact isAlnum_toLower y (hbl y hy)
  have hCh : ∀ z, (jsToLowerL c).head? = some z → isAlnum z = true := by
    intro z hz
    have hz2 : (List.map Char.toLower c).head? = some z := hz
    rw [List.head?_map] at hz2
    obtain ⟨y, hy, rfl⟩ := Option.map_eq_some'.mp hz2
    exact isAlnum_toLower y (hch y hy)
  have hCl : ∀ z, (jsToLowerL c).getLast? = some z → isAlnum z = true := by
    intro z hz
    have hz2 : (List.map Char.toLower c).getLast? = some z := hz
    rw [List.getLast?_map] at hz2
    obtain ⟨y, hy, rfl⟩ := Option.map_eq_some'.mp hz2
    exact isAlnum_toLower y (hcl y hy)
  obtain ⟨t, ht⟩ := emailLens_canonical (jsToLowerL a) w1 w2 (jsToLowerL b) w3 w4 (jsToLowerL c)
    hAne hAC hw1n hw1S hw2n hw2S hBne hBC hBh hBl hw3n hw3S hw4n hw4S hCne hCC hCh hCl
  have hlen : (jsToLowerL a ++ (w1 ++ ([ 'a', 't' ] ++ (w2 ++
      (jsToLowerL b ++ (w3 ++ ([ 'd', 'o', 't' ] ++ (w4 ++ jsToLowerL c)))))))).length
      = (jsToLowerL a).length + ((w1.length + (2 + w2.length)) +
          (((jsToLowerL b).length + (w3.length + (3 + w4.length))) + (jsToLowerL c).length)) := by
    simp only [List.length_append, List.length_cons, List.length_nil]
    omega
  have ht2 : emailLens (jsToLowerL a ++ (w1 ++ ([ 'a', 't' ] ++ (w2 ++
      (jsToLowerL b ++ (w3 ++ ([ 'd', 'o', 't' ] ++ (w4 ++ jsToLowerL c))))))))
      = (jsToLowerL a ++ (w1 ++ ([ 'a', 't' ] ++ (w2 ++
        (jsToLowerL b ++ (w3 ++ ([ 'd', 'o', 't' ] ++ (w4 ++ jsToLowerL c)))))))).length :: t := by
    rw [hlen]
    exact ht
  rw [execLoop_single _ t ht2]
  have hss : startsSlashSlash (jsToLowerL a ++ (w1 ++ ([ 'a', 't' ] ++ (w2 ++
      (jsToLowerL b ++ (w3 ++ ([ 'd', 'o', 't' ] ++ (w4 ++ jsToLowerL c)))))))) = false := by
    apply startsSlashSlash_false
    apply slashPrefix_append (jsToLowerL a) _ hAne
    · intro hP
      exact haP (slashPrefix_toLower a hP)
    · intro d hd
      rw [head?_append_left w1 _ hw1n] at hd
      exact (isSpace_facts d (head_all hw1S d hd)).2.2.2.2.2.2.2
  have hra : replaceAtDot (jsToLowerL a ++ (w1 ++ ([ 'a', 't' ] ++ (w2 ++
      (jsToLowerL b ++ (w3 ++ ([ 'd', 'o', 't' ] ++ (w4 ++ jsToLowerL c))))))))
      = jsToLowerL a ++ ('@' :: (jsToLowerL b ++ ('.' :: jsToLowerL c))) := by
    have hANS : ∀ x ∈ jsToLowerL a, isSpace x = false :=
      fun x hx => isLocalChar_not_space x (hAC x hx)
    have hBNS : ∀ x ∈ jsToLowerL b, isSpace x = false :=
      fun x hx => isDomainChar_not_space x (hBC x hx)
    have hCNS : ∀ x ∈ jsToLowerL c, isSpace x = false :=
      fun x hx => isDomainChar_not_space x (hCC x hx)
    have hRh : ∀ d, (jsToLowerL b ++ (w3 ++ ([ 'd', 'o', 't' ] ++
        (w4 ++ jsToLowerL c)))).head? = some d → isSpace d = false := by
      intro d hd
      rw [head?_append_left _ _ hBne] at hd
      exact isDomainChar_not_space d (hBC d (mem_of_head? hd))
    have hCh2 : ∀ d, (jsToLowerL c).head? = some d → isSpace d = false :=
      fun d hd => isDomainChar_not_space d (hCC d (mem_of_head? hd))
    rw [replaceAtDot_prefix_nonspace (jsToLowerL a) _ hANS,
      replaceAtDot_at w1 w2 _ hw1n hw1S hw2n hw2S hRh,
      replaceAtDot_prefix_nonspace (jsToLowerL b) _ hBNS,
      replaceAtDot_dot w3 w4 (jsToLowerL c) hw3n hw3S hw4n hw4S hCh2,
      replaceAtDot_all_nonspace (jsToLowerL c) hCNS]
  simp only [List.filter_cons, List.filter_nil, hss, Bool.not_false]
  rw [if_pos trivial]
  simp only [List.map_cons, List.map_nil, hra]

theorem parseEmailAddresses_lower (input : String) (e : String)
    (he : e ∈ parseEmailAddresses input) : jsToLower e = e := by
  by_cases h : input = ""
  · subst h
    simp [parseEmailAddresses] at he
  · rw [parseEmailAddresses_eq input h] at he
    obtain ⟨m, hm, rfl⟩ := List.mem_map.mp he
    have hmf := List.mem_of_mem_filter hm
    have hsub : ∀ x ∈ m, x ∈ jsToLowerL (removeCommentLines input.toList) :=
      execLoop_mem _ _ _ m hmf
    have hfix : ∀ x ∈ replaceAtDot m, Char.toLower x = x := by
      intro x hx
      rcases replaceAtDotF_mem m.length m x hx with hxm | rfl | rfl
      · exact mem_jsToLowerL_fixed _ x (hsub x hxm)
      · decide
      · decide
    exact congrArg String.mk (mapToLower_fixed _ hfix)

/-! # Claims -/

/-- C1: for every record and every found template, the template merge copies
a template field onto the record only when the record's own value for that
field is empty — a non-empty record field is never overwritten, the
`template_label` is preserved, and an empty `template_label` returns the
record unchanged. -/
theorem claim_C1 (templates : String → Option EmailRow) (row : EmailRow) :
    (getField row "template_label" = "" → applyTemplateIfNeeded templates row = .ok row) ∧
    (∀ r', applyTemplateIfNeeded templates row = .ok r' →
      (∀ k, getField row k ≠ "" → getField r' k = getField row k) ∧
      getField r' "template_label" = getField row "template_label") := by
  constructor
  · intro h
    simp [applyTemplateIfNeeded, h]
  · intro r' h
    unfold applyTemplateIfNeeded at h
    by_cases hl : getField row "template_label" = ""
    · rw [if_pos hl] at h
      injection h with h
      subst h
      exact ⟨fun k _ => rfl, rfl⟩
    · rw [if_neg hl] at h
      cases htpl : templates (getField row "template_label") with
      | none => rw [htpl] at h; cases h
      | some tpl =>
        rw [htpl] at h
        injection h with h
        subst h
        exact ⟨fun k hk => mergeTemplate_preserves row tpl k hk,
          mergeTemplate_preserves row tpl _ hl⟩

/-- Witness for C1: merging the record `{a: "x", template_label: "T"}`
against the template `{a: "y"}` keeps `a = "x"`. -/
theorem claim_C1_witness :
    getField (mergeTemplate ⟨[("a", "x"), ("template_label", "T")]⟩ ⟨[("a", "y")]⟩) "a" = "x" :=
  ((claim_C1 (fun _ => some ⟨[("a", "y")]⟩) ⟨[("a", "x"), ("template_label", "T")]⟩).2
    (mergeTemplate ⟨[("a", "x"), ("template_label", "T")]⟩ ⟨[("a", "y")]⟩)
    rfl).1 "a" (by decide)

/-- C2: for every input, `sanitizeJsonText` returns text the JSON runtime
can parse, and returns the canonical empty-object text whenever the cleaned
input cannot be parsed (and for empty input); a parse error is never
propagated — the function always returns a string.  The two hypotheses are
the JSON runtime contract: stringified values re-parse, and the canonical
empty-object text parses. -/
theorem claim_C2 (parse : String → Option Json) (stringify : Json → String)
    (hrt : ∀ j : Json, (parse (stringify j)).isSome = true)
    (hempty : (parse emptyObjectText).isSome = true) :
    ∀ text : String,
      (parse (sanitizeJsonText parse stringify text)).isSome = true ∧
      (parse (cleanedText text) = none →
        sanitizeJsonText parse stringify text = emptyObjectText) ∧
      (text = "" → sanitizeJsonText parse stringify text = emptyObjectText) := by
  intro text
  unfold sanitizeJsonText
  by_cases ht : text = ""
  · rw [if_pos ht]
    exact ⟨hempty, fun _ => rfl, fun _ => rfl⟩
  · rw [if_neg ht]
    cases hp : parse (cleanedText text) with
    | none => exact ⟨hempty, fun _ => rfl, fun he => absurd he ht⟩
    | some j =>
      refine ⟨hrt j, fun he => ?_, fun he => absurd he ht⟩
      exact Option.noConfusion he

/-- Witness for C2 at a sample JSON runtime and the input `name: value`. -/
theorem claim_C2_witness :
    (demoParse (sanitizeJsonText demoParse demoStringify "name: value")).isSome = true :=
  (claim_C2 demoParse demoStringify (fun _ => rfl) rfl "name: value").1

/-- C3: a record containing an attachment reference whose resolved size
exceeds the 21 MiB ceiling fails with the `Attachment file too large` error
naming the reference, attachment resolution as a whole errors, and no
message is ever handed to the mail transport — in particular no partial
send happens and `sendEmail` does not report success. -/
theorem claim_C3 (env : Env) (row : EmailRow) (tok id : String) (n : Nat)
    (hmem : tok ∈ attachmentTokens (getField row "attachments_urls"))
    (hid : extractFileId tok = some id)
    (hsize : env.fileSize id = some n)
    (hbig : MAX_ATTACHMENT_SIZE < n) :
    processAttachmentToken env tok = .error ("Attachment file too large: " ++ id) ∧
    (∃ e, getAttachments env row = .error e) ∧
    outcomeMails (builderSendEmail env row) = [] ∧
    outcomeDelivered (builderSendEmail env row) = false := by
  have hproc : processAttachmentToken env tok = .error ("Attachment file too large: " ++ id) := by
    simp only [processAttachmentToken, hid, hsize]
    rw [if_pos hbig]
  have hurls : getField row "attachments_urls" ≠ "" := by
    intro he
    have hts : attachmentTokens "" = [""] := rfl
    rw [he, hts] at hmem
    rw [List.mem_singleton.mp hmem] at hid
    cases hid
  have hatt : ∃ e, getAttachments env row = .error e := by
    unfold getAttachments
    rw [if_neg hurls]
    exact attachAll_error_of_mem env _ tok _ hmem hproc
  refine ⟨hproc, hatt, ?_⟩
  obtain ⟨e, he⟩ := hatt
  unfold builderSendEmail
  cases combineEmailAddresses
      [getField row "distribution_emails", getField row "additional_emails"] with
  | none => exact ⟨rfl, rfl⟩
  | some recipients =>
    cases buildEmailBody env row with
    | none => exact ⟨rfl, rfl⟩
    | some body =>
      rw [he]
      exact ⟨rfl, rfl⟩

/-- Witness for C3: a record with a single 25-character attachment
reference in an environment where that file is one byte over the ceiling. -/
theorem claim_C3_witness :
    outcomeMails (builderSendEmail bigFileEnv
      ⟨[("attachments_urls", demoAttachmentRef)]⟩) = [] :=
  (claim_C3 bigFileEnv ⟨[("attachments_urls", demoAttachmentRef)]⟩
    demoAttachmentRef demoAttachmentRef (MAX_ATTACHMENT_SIZE + 1)
    (by decide) (by decide) rfl (by decide)).2.2.1

/-- C4 counterexample: a record whose `distribution_emails` and
`additional_emails` are both empty but whose `template_label` names a
template supplying a recipient is sent and archived by the pipeline, not
skipped. -/
theorem claim_C4_counterexample :
    getField cexRow "distribution_emails" = "" ∧
    getField cexRow "additional_emails" = "" ∧
    (stepRow demoEnv demoTemplates cexRow).archived = true ∧
    (stepRow demoEnv demoTemplates cexRow).mailCalls ≠ [] := by
  refine ⟨rfl, rfl, by decide, by decide⟩

/-- C4 as amended: for every record which *after template resolution* has
both recipient fields empty, or an empty body-template reference, validation
fails and the row step is a silent skip — no transport call, no history
append, no deletion, no error. -/
theorem claim_C4_amended (env : Env) (templates : String → Option EmailRow)
    (row r' : EmailRow)
    (hmerge : applyTemplateIfNeeded templates row = .ok r')
    (hcond : (getField r' "distribution_emails" = "" ∧ getField r' "additional_emails" = "")
      ∨ getField r' "email_body_template" = "") :
    validateRow r' = false ∧ stepRow env templates row = ⟨[], false, false⟩ := by
  have hval : validateRow r' = false := by
    unfold validateRow
    rcases hcond with ⟨h1, h2⟩ | h3
    · rw [h1, h2]
      simp
    · rw [h3]
      simp
  refine ⟨hval, ?_⟩
  unfold stepRow
  by_cases hemp : rowIsEmpty row = true
  · rw [if_pos hemp]
  · rw [if_neg hemp, hmerge]
    simp only [hval]
    rfl

/-- Witness for C4 as amended: a record with a body reference but no
recipients and no template label is silently skipped. -/
theorem claim_C4_witness :
    stepRow demoEnv demoTemplates ⟨[("email_body_template", demoBodyRef)]⟩
      = ⟨[], false, false⟩ :=
  (claim_C4_amended demoEnv demoTemplates ⟨[("email_body_template", demoBodyRef)]⟩
    ⟨[("email_body_template", demoBodyRef)]⟩ rfl (Or.inl ⟨rfl, rfl⟩)).2

/-- C6: `combineEmailAddresses` is idempotent under a duplicated source, its
output list never contains duplicates, and when no addresses are found the
result is `null` rather than an error. -/
theorem claim_C6 :
    (∀ X : String, combineEmailAddresses [X, X] = combineEmailAddresses [X]) ∧
    (∀ sources : List String, (combinedList sources).Nodup) ∧
    (∀ sources : List String, allEmails sources = [] →
      combineEmailAddresses sources = none) := by
  refine ⟨?_, ?_, ?_⟩
  · intro X
    have hall : allEmails [X, X]
        = (if X = "" then [] else parseEmailAddresses X)
          ++ (if X = "" then [] else parseEmailAddresses X) := by
      simp [allEmails]
    have hone : allEmails [X] = (if X = "" then [] else parseEmailAddresses X) := by
      simp [allEmails]
    have hcl : combinedList [X, X] = combinedList [X] := by
      unfold combinedList
      rw [hall, hone, List.filter_append, dedupFirst_append_self]
    unfold combineEmailAddresses
    rw [hcl]
  · intro sources
    exact dedupFirst_nodup _
  · intro sources hempty
    unfold combineEmailAddresses combinedList
    rw [hempty]
    rfl

/-- Witness for C6: an empty source yields the `null` signal. -/
theorem claim_C6_witness : combineEmailAddresses [""] = none :=
  claim_C6.2.2 [""] rfl

/-- C7: evaluated at a text containing the two distinct identifiers
`123-456-789` and `987-654-321`, `parseSessionId` returns the first
occurrence but logs no conflict; indeed the multiple-identifiers branch is
unreachable — `text.match` with a non-global regex yields at most one
element, so no input ever logs a conflict. -/
theorem claim_C7 :
    parseSessionId "Sessions 123-456-789 and 987-654-321 listed"
      = ⟨some "123-456-789", false⟩ ∧
    parseSessionId "987-654-321" = ⟨some "987-654-321", false⟩ ∧
    (∀ text : String, (parseSessionId text).conflictLogged = false) := by
  refine ⟨by decide, by decide, ?_⟩
  intro text
  unfold parseSessionId
  by_cases ht : text = ""
  · rw [if_pos ht]
  · rw [if_neg ht]
    cases findSession none text.toList with
    | none => rfl
    | some m =>
      simp only
      cases hf : [String.mk m].filter (fun s => s ≠ "") with
      | nil => simp [hf]
      | cons a t =>
        have : t = [] := by
          have := congrArg List.length hf
          simp [List.length_filter_le] at this
          cases t with
          | nil => rfl
          | cons b u =>
            exfalso
            have h2 := [String.mk m].length_filter_le (fun s => s ≠ "")
            rw [hf] at h2
            simp at h2
        subst this
        simp [hf]

/-- C8 counterexample: on the three-character input backslash backslash
quote, the source order of the first two cleanup passes (un-escape quotes,
then collapse backslashes) differs from the order the claim states
(collapse backslashes, then un-escape quotes). -/
theorem claim_C8_counterexample :
    cleanedText "\\\\\"" ≠ specOrderCleanedText "\\\\\"" := by
  decide

/-- C8 as amended: for every input, the cleaned text equals the composition
of the passes applied in the source order — (b) un-escape escaped quotes,
then (a) collapse doubled backslashes, then (c) line breaks to spaces, then
(d) trim, then (e) brace completion. -/
theorem claim_C8_amended (t : String) :
    cleanedText t = String.mk (ensureBracesL (jsTrimL (newlinesToSpaces
      (collapseBackslashes (unescapeQuotes t.toList))))) :=
  rfl

/-- C9: the `EmailBuilder` constructor of the compiled source rewrites the
subject-related fields through `sanitizeInput`, so every literal ampersand
in `email_subject_template` and `subject_template_value` is replaced by the
word `and` and the text handed to the subject evaluator contains no literal
ampersand from those fields. -/
theorem claim_C9 (row : EmailRow) :
    getField (builderInit row) "email_subject_template"
      = sanitizeInput (getField row "email_subject_template") ∧
    getField (builderInit row) "subject_template_value"
      = sanitizeInput (getField row "subject_template_value") ∧
    (getField (builderInit row) "email_subject_template").toList.all
      (fun c => c != '&') = true ∧
    (getField (builderInit row) "subject_template_value").toList.all
      (fun c => c != '&') = true := by
  refine ⟨builderInit_subject row, builderInit_value row, ?_, ?_⟩
  · rw [builderInit_subject row]
    exact sanitizeInput_all_ne _
  · rw [builderInit_value row]
    exact sanitizeInput_all_ne _

/-- C10: for a record that passes validation, whose body renders and whose
attachments resolve, a failure while evaluating the subject template does
not fail the record — the subject falls back to the default subject and the
message is still handed to the mail transport; a body failure, by contrast,
stops the record before any transport call. -/
theorem claim_C10 :
    (∀ (env : Env) (row : EmailRow) (recips body : String) (atts : List String),
      combineEmailAddresses
        [getField row "distribution_emails", getField row "additional_emails"]
        = some recips →
      buildEmailBody env row = some body →
      getAttachments env row = .ok atts →
      subjectRendered env row = none →
      getFinalSubject env row = DEFAULT_SUBJECT ∧
      builderSendEmail env row
        = .attempted ⟨recips, DEFAULT_SUBJECT, body, atts, FROM_EMAIL⟩
            (env.transportOk ⟨recips, DEFAULT_SUBJECT, body, atts, FROM_EMAIL⟩)) ∧
    (∀ (env : Env) (row : EmailRow) (recips : String),
      combineEmailAddresses
        [getField row "distribution_emails", getField row "additional_emails"]
        = some recips →
      buildEmailBody env row = none →
      builderSendEmail env row = .skipped) := by
  constructor
  · intro env row recips body atts hrec hbody hatt hsubj
    have hsub : getFinalSubject env row = DEFAULT_SUBJECT := by
      unfold getFinalSubject
      by_cases hs : getField row "email_subject_template" = ""
      · rw [if_pos hs]
      · rw [if_neg hs, hsubj]
    refine ⟨hsub, ?_⟩
    unfold builderSendEmail
    rw [hrec, hbody, hatt]
    simp only [hsub]
  · intro env row recips hrec hbody
    unfold builderSendEmail
    rw [hrec, hbody]

/-- Witness for C10: a record whose subject template text fails to evaluate
is still sent, with the configured default subject. -/
theorem claim_C10_witness :
    builderSendEmail demoEnv
      ⟨[("distribution_emails", "a@b.c"), ("email_body_template", demoBodyRef),
        ("email_subject_template", "SUBJ")]⟩
      = .attempted ⟨"a@b.c", DEFAULT_SUBJECT, "R:BODY", [], FROM_EMAIL⟩ true :=
  (claim_C10.1 demoEnv
    ⟨[("distribution_emails", "a@b.c"), ("email_body_template", demoBodyRef),
      ("email_subject_template", "SUBJ")]⟩
    "a@b.c" "R:BODY" [] rfl rfl rfl rfl).2

/-- C5: for every obfuscated input of the form `a at b dot c` (whitespace
separators around the literal words `at` and `dot`, a local part from the
local character class, well-formed domain labels, case handled by the
lowercasing pass), `parseEmailAddresses` yields exactly the normalized
address `a@b.c` in lowercase; and every address the function ever outputs,
on any input, is already lowercase. -/
theorem claim_C5 :
    (∀ a w1 w2 b w3 w4 c : List Char,
        LocalOk a → WsOk w1 → WsOk w2 → LabelOk b → WsOk w3 → WsOk w4 → LabelOk c →
        parseEmailAddresses (String.mk (a ++ (w1 ++ ([ 'a', 't' ] ++ (w2 ++
            (b ++ (w3 ++ ([ 'd', 'o', 't' ] ++ (w4 ++ c)))))))))
          = [String.mk (jsToLowerL a ++ ('@' :: (jsToLowerL b ++ ('.' :: jsToLowerL c))))]) ∧
    (∀ (input e : String), e ∈ parseEmailAddresses input → jsToLower e = e) :=
  ⟨fun a w1 w2 b w3 w4 c hA h1 h2 hB h3 h4 hC =>
      parseEmailAddresses_canonical a w1 w2 b w3 w4 c hA h1 h2 hB h3 h4 hC,
    fun input e he => parseEmailAddresses_lower input e he⟩

/-- Witness for C5 at the concrete input `U x ... `: the obfuscated text
made of local part `U`, single-space separators, and one-letter domain
labels `x` and `y` parses to the single lowercased address `u@x.y`. -/
theorem claim_C5_witness :
    parseEmailAddresses (String.mk ([ 'U' ] ++ ([ ' ' ] ++ ([ 'a', 't' ] ++ ([ ' ' ] ++
        ([ 'x' ] ++ ([ ' ' ] ++ ([ 'd', 'o', 't' ] ++ ([ ' ' ] ++ [ 'y' ])))))))))
      = [String.mk (jsToLowerL [ 'U' ] ++ ('@' :: (jsToLowerL [ 'x' ] ++ ('.' :: jsToLowerL [ 'y' ]))))] :=
  claim_C5.1 [ 'U' ] [ ' ' ] [ ' ' ] [ 'x' ] [ ' ' ] [ ' ' ] [ 'y' ]
    ⟨by decide, by decide, by decide⟩
    ⟨by decide, by decide⟩
    ⟨by decide, by decide⟩
    ⟨by decide, by decide,
      by intro z hz; simp at hz; subst hz; decide,
      by intro z hz; simp at hz; subst hz; decide⟩
    ⟨by decide, by decide⟩
    ⟨by decide, by decide⟩
    ⟨by decide, by decide,
      by intro z hz; simp at hz; subst hz; decide,
      by intro z hz; simp at hz; subst hz; decide⟩

end ReviewSender

